import Mathlib

set_option maxHeartbeats 1000000

/-!
Verification development for `optimize_london_itinerary.py`.

The Python engine is shallowly embedded: its dataclasses become structures,
its static tables become Lean constants, minutes are `ℤ`, geographic
coordinates are exact rationals, and the floating point trigonometry of
`haversine_km` is embedded over `ℝ` (float rounding is idealised as exact
real arithmetic). Functions that can raise (`parse_time_range`,
`get_day_time_bounds` and everything calling them) return `Except`.
In-place mutation of the day list by `merge_duplicate_locations` becomes a
function from the day list to a new day list.
-/

namespace London

/-- Embeds the Python dataclass `LocationInfo`. -/
structure LocationInfo where
  name : String
  lat : ℚ
  lon : ℚ
  category : String
  default_duration : ℤ
  aliases : List String
  notes : String
deriving Repr, DecidableEq

/-- Embeds the Python dataclass `TimelineItem`. -/
structure TimelineItem where
  time : String
  activity : String
  details : String
deriving Repr, DecidableEq

/-- Embeds the Python dataclass `DaySection`. -/
structure DaySection where
  index : ℕ
  title : String
  theme : String
  lines : List String
  timeline : List TimelineItem
  locations : List String
  removed_duplicates : List String
  added_essentials : List String
deriving Repr, DecidableEq

/-- Embeds the Python dataclass `Segment` (`start`/`stop` are minutes from
midnight; `stop` embeds the Python field `end`, which is a Lean keyword). -/
structure Segment where
  start : ℤ
  stop : ℤ
  title : String
  location : String
  details : String
  segment_type : String
deriving Repr, DecidableEq

/-- Embeds the helper `_loc` used to build the catalog. -/
def mkLoc (name : String) (lat lon : ℚ) (category : String) (duration : ℤ)
    (aliases : List String) : LocationInfo :=
  ⟨name, lat, lon, category, duration, aliases, ""⟩

/-- Embeds `LOCATION_LIBRARY`: the full static catalog of the script. -/
def LOCATION_LIBRARY : List LocationInfo := [
  mkLoc "Heathrow Airport" 51.4700 (-0.4543) "transport" 30 ["heathrow", "arrivee heathrow"],
  mkLoc "Paddington Station" 51.5154 (-0.1754) "transport" 15 ["paddington"],
  mkLoc "Southwark Station" 51.5046 (-0.1050) "transport" 10 ["southwark"],
  mkLoc "citizenM London Bankside" 51.5055 (-0.0993) "hotel" 30 ["citizenm", "citizenm bankside", "citizenm london bankside"],
  mkLoc "South Bank Promenade" 51.5073 (-0.0995) "walk" 60 ["south bank"],
  mkLoc "London Eye" 51.5033 (-0.1196) "landmark" 60 ["london eye"],
  mkLoc "Carnaby Street" 51.5135 (-0.1394) "walk" 45 ["carnaby"],
  mkLoc "Oxford Circus" 51.5150 (-0.1410) "landmark" 10 ["oxford circus"],
  mkLoc "Regent Street" 51.5145 (-0.1420) "walk" 30 ["regent street"],
  mkLoc "Oxford Street" 51.5154 (-0.1410) "walk" 30 ["oxford street"],
  mkLoc "Covent Garden" 51.5129 (-0.1226) "landmark" 45 ["covent garden"],
  mkLoc "Seven Dials Market" 51.5135 (-0.1258) "food" 60 ["seven dials"],
  mkLoc "Soho" 51.5136 (-0.1365) "walk" 60 ["soho"],
  ⟨"Liberty London", 51.5136, -0.1406, "shopping", 45, ["liberty london", "liberty"], "Grand magasin emblematique."⟩,
  mkLoc "Mayfair Arcades" 51.5090 (-0.1488) "walk" 60 ["mayfair"],
  mkLoc "Harrods" 51.4996 (-0.1635) "shopping" 75 ["harrods"],
  mkLoc "New Bond Street" 51.5123 (-0.1497) "shopping" 45 ["bond street", "new bond street"],
  mkLoc "Sketch Mayfair" 51.5114 (-0.1417) "food" 75 ["sketch"],
  mkLoc "Buckingham Palace" 51.5014 (-0.1419) "landmark" 40 ["buckingham", "buckingham palace"],
  mkLoc "St James's Park" 51.5010 (-0.1365) "park" 40 ["st james", "st james's park"],
  mkLoc "Hyde Park Winter Wonderland" 51.5073 (-0.1668) "experience" 150 ["winter wonderland", "hyde park winter wonderland"],
  mkLoc "Hyde Park" 51.5073 (-0.1657) "park" 60 ["hyde park"],
  mkLoc "Bavarian Village" 51.5071 (-0.1689) "food" 60 ["bavarian village"],
  mkLoc "Alpen Village" 51.5080 (-0.1698) "food" 45 ["alpen village"],
  mkLoc "Bankside Pier" 51.5079 (-0.0980) "transport" 10 ["bankside pier"],
  mkLoc "Westminster Pier" 51.5010 (-0.1230) "transport" 10 ["westminster pier"],
  mkLoc "Palace of Westminster" 51.4995 (-0.1245) "landmark" 30 ["palais de westminster", "westminster", "big ben"],
  mkLoc "Buckingham Gate" 51.4990 (-0.1414) "transfer" 15 ["whitehall"],
  mkLoc "Trafalgar Square" 51.5080 (-0.1281) "landmark" 45 ["trafalgar square"],
  mkLoc "National Gallery" 51.5089 (-0.1283) "museum" 60 ["national gallery"],
  mkLoc "Fortnum & Mason" 51.5097 (-0.1396) "shopping" 60 ["fortnum", "fortnum & mason"],
  mkLoc "Piccadilly Arcade" 51.5080 (-0.1380) "shopping" 40 ["piccadilly"],
  mkLoc "British Museum" 51.5194 (-0.1269) "museum" 90 ["british museum"],
  mkLoc "St Martin-in-the-Fields" 51.5091 (-0.1269) "landmark" 30 ["st martin"],
  mkLoc "St Paul's Cathedral" 51.5138 (-0.0984) "landmark" 60 ["st paul", "st paul's cathedral"],
  mkLoc "Sky Garden" 51.5107 (-0.0830) "landmark" 45 ["sky garden"],
  mkLoc "Leadenhall Market" 51.5123 (-0.0830) "walk" 40 ["leadenhall"],
  mkLoc "Borough Market" 51.5054 (-0.0911) "food" 60 ["borough market"],
  mkLoc "The Shard" 51.5045 (-0.0865) "landmark" 40 ["the shard", "shard"],
  mkLoc "Tower Bridge" 51.5055 (-0.0754) "landmark" 45 ["tower bridge"],
  mkLoc "Tower of London" 51.5081 (-0.0759) "landmark" 60 ["tower of london"],
  mkLoc "Camden Market" 51.5416 (-0.1460) "experience" 90 ["camden", "camden market"],
  mkLoc "Seabird Rooftop" 51.5084 (-0.1002) "food" 90 ["seabird"],
  mkLoc "Hawksmoor Borough" 51.5059 (-0.0919) "food" 90 ["hawksmoor", "hawksmoor borough"],
  mkLoc "OXO Tower" 51.5076 (-0.1117) "food" 90 ["oxo tower", "oxo tower bar", "oxo tower brasserie"],
  mkLoc "Oblix at The Shard" 51.5045 (-0.0865) "food" 120 ["oblix", "oblix the shard"],
  mkLoc "The Gentlemen Baristas Bankside" 51.5066 (-0.0999) "food" 30 ["gentlemen baristas"],
  mkLoc "Somerset House" 51.5113 (-0.1163) "landmark" 45 ["somerset house"]]

/-- Embeds `HOTEL_NAME`. -/
def HOTEL_NAME : String := "citizenM London Bankside"

/-- Embeds the dictionary lookup `LOCATION_MAP.get(name)` (the map is built
from `LOCATION_LIBRARY` keyed by name; names in the library are distinct, so
first match equals the dict entry). -/
def LOCATION_MAP_get (name : String) : Option LocationInfo :=
  LOCATION_LIBRARY.find? (fun info => info.name = name)

/-- Embeds `TRANSIT_OVERRIDES` as an association list of ordered pairs. -/
def TRANSIT_OVERRIDES : List ((String × String) × ℤ) := [
  (("Heathrow Airport", "Paddington Station"), 15),
  (("Paddington Station", HOTEL_NAME), 30),
  ((HOTEL_NAME, "Paddington Station"), 30),
  (("Paddington Station", "Heathrow Airport"), 15),
  ((HOTEL_NAME, "Heathrow Airport"), 75),
  (("Heathrow Airport", HOTEL_NAME), 75)]

/-- Embeds the dictionary lookup `TRANSIT_OVERRIDES.get((a, b))` (keys are
distinct, so first match equals the dict entry). -/
def TRANSIT_OVERRIDES_get (a b : String) : Option ℤ :=
  (TRANSIT_OVERRIDES.find? (fun e => e.1.1 = a ∧ e.1.2 = b)).map (·.2)

/-- Embeds `DEDUP_WHITELIST` (a Python set; membership is all that is used). -/
def DEDUP_WHITELIST : List String := [
  HOTEL_NAME,
  "Heathrow Airport",
  "Paddington Station",
  "Southwark Station",
  "South Bank Promenade",
  "Bankside Pier",
  "Westminster Pier"]

/-- Embeds `PREFERRED_ORDER.get(theme, [])`. -/
def PREFERRED_ORDER_get (theme : String) : List String :=
  match theme with
  | "arrival" => ["Carnaby Street", "Regent Street", "Oxford Street", "Oxford Circus",
      "Covent Garden", "South Bank Promenade"]
  | "mayfair" => ["Soho", "Liberty London", "New Bond Street", "Fortnum & Mason",
      "Buckingham Palace", "St James's Park", "Hyde Park", "Hyde Park Winter Wonderland",
      "Bavarian Village", "Alpen Village"]
  | "city" => ["South Bank Promenade", "London Eye", "Borough Market", "Westminster Pier",
      "Trafalgar Square", "Piccadilly Arcade", "Fortnum & Mason", "Harrods", "Tower Bridge",
      "The Shard", "Oblix at The Shard"]
  | "departure" => ["The Gentlemen Baristas Bankside"]
  | _ => []

/-- Embeds `LOCATION_DESCRIPTIONS.get` as an association lookup. -/
def LOCATION_DESCRIPTIONS_get (name : String) : Option String :=
  match name with
  | "citizenM London Bankside" => some "Check-in et petite pause pour poser les valises."
  | "South Bank Promenade" => some "Flane le long de la Tamise, ambiance street art et food stalls."
  | "London Eye" => some "Vue panoramique douce pour se mettre dans l'ambiance."
  | "Carnaby Street" => some "Rue pop aux illuminations iconiques, parfaite en debut de soiree."
  | "Regent Street" => some "Arches lumineuses et vitrines de Noel pour une balade tranquille."
  | "Covent Garden" => some "Sapin geant, stands gourmands et atmosphere musicale."
  | "Soho" => some "Quartier vivant, cafes cosy et ruelles creatives."
  | "Liberty London" => some "Grand magasin a colombages, selection mode et deco arty."
  | "New Bond Street" => some "Vitrines de luxe et decors scintillants."
  | "Fortnum & Mason" => some "Maison de the historique, parfait pour une pause sucrerie."
  | "Buckingham Palace" => some "Cliche photo devant la residence royale, ambiance carte postale."
  | "St James's Park" => some "Parc apaisant pour respirer entre deux balades urbaines."
  | "Hyde Park" => some "Grand bol d'air, Winter Wonderland juste a cote."
  | "Hyde Park Winter Wonderland" => some "Attractions festives, vin chaud et grande roue."
  | "Trafalgar Square" => some "Esplanade animee, musiciens et illuminations historiques."
  | "Piccadilly Arcade" => some "Passage couvert elegant juste a cote de Piccadilly Circus."
  | "Harrods" => some "Galeries gourmandes et vitrines legendaires de Noel."
  | "Borough Market" => some "Marche gourmet aux stands de Noel pour grignoter local."
  | "The Shard" => some "Gratte-ciel iconique offrant un panorama grandiose."
  | "Oblix at The Shard" => some "Diner panoramique avec vue sur toute la ville."
  | "Tower Bridge" => some "Balade au bord de la Tamise avec iconique pont victorien."
  | "Mayfair Arcades" => some "Arcanes elegantes, idees cadeaux haut de gamme."
  | "Sketch Mayfair" => some "Pause healthy ou gourmandise dans un cadre arty."
  | "Bavarian Village" => some "Chalets en bois, biere chaude et musique live."
  | "Alpen Village" => some "Chemin gourmand plus calme pour se poser."
  | _ => none

/-- Embeds `TRANSFER_NOTES.get` as an association lookup on ordered pairs. -/
def TRANSFER_NOTES_get (a b : String) : Option String :=
  match a, b with
  | "Heathrow Airport", "citizenM London Bankside" =>
      some "Heathrow Express jusqu'a Paddington puis taxi/metro (75 min)."
  | "citizenM London Bankside", "Harrods" =>
      some "Metro Jubilee puis Piccadilly Line (30 min environ)."
  | "citizenM London Bankside", "Hyde Park" =>
      some "Metro Jubilee -> Green Park puis promenade (25 min)."
  | "citizenM London Bankside", "Oblix at The Shard" =>
      some "Marche 10 min jusqu'au Shard, profiter des elevateurs panorama."
  | _, _ => none

/-! ### Time parsing (`parse_time_range`) and day bounds (`get_day_time_bounds`) -/

/-- One character of `time_str.replace("–", "-").replace("—", "-")`. -/
def dashChar (c : Char) : Char := if c = '–' ∨ c = '—' then '-' else c

/-- Embeds `time_str.replace("–", "-").replace("—", "-")`: both dash
replacements are single character to single character. -/
def dashNormalize (cs : List Char) : List Char := cs.map dashChar

/-- Numeric value of a digit character. -/
def digitVal (c : Char) : ℤ := (c.toNat : ℤ) - 48

/-- Embeds `re.findall(r"(\d{1,2})h(\d{2})", s)`: scan left to right; at each
position try the greedy two-digit hour first, then the one-digit hour; on a
match emit `(hour, minute)` and continue after the match, otherwise advance
one character. -/
def findTimeMatches : List Char → List (ℤ × ℤ)
  | c1 :: c2 :: c3 :: c4 :: c5 :: rest =>
    if c1.isDigit ∧ c2.isDigit ∧ c3 = 'h' ∧ c4.isDigit ∧ c5.isDigit then
      (10 * digitVal c1 + digitVal c2, 10 * digitVal c4 + digitVal c5) :: findTimeMatches rest
    else if c1.isDigit ∧ c2 = 'h' ∧ c3.isDigit ∧ c4.isDigit then
      (digitVal c1, 10 * digitVal c3 + digitVal c4) :: findTimeMatches (c5 :: rest)
    else
      findTimeMatches (c2 :: c3 :: c4 :: c5 :: rest)
  | [c1, c2, c3, c4] =>
    if c1.isDigit ∧ c2 = 'h' ∧ c3.isDigit ∧ c4.isDigit then
      [(digitVal c1, 10 * digitVal c3 + digitVal c4)]
    else
      findTimeMatches [c2, c3, c4]
  | [_, c2, c3] => findTimeMatches [c2, c3]
  | [_, c2] => findTimeMatches [c2]
  | [_] => []
  | [] => []

/-- Embeds `parse_time_range`: converts a string like `HHhMM-HHhMM` to
absolute minutes; raises (returns `.error`) when the pattern does not match
anywhere; a single time gets a default 60 minute duration. -/
def parse_time_range (time_str : String) : Except String (ℤ × ℤ) :=
  match findTimeMatches (dashNormalize time_str.data) with
  | [] => .error "Format dheure inattendu"
  | (h1, m1) :: rest =>
    let start_total := h1 * 60 + m1
    match rest with
    | (h2, m2) :: _ => .ok (start_total, h2 * 60 + m2)
    | [] => .ok (start_total, start_total + 60)

/-- The theme presets of `get_day_time_bounds` (`presets.get(theme, (9*60, 21*60))`). -/
def themePresets (theme : String) : ℤ × ℤ :=
  match theme with
  | "arrival" => (15 * 60, 23 * 60)
  | "mayfair" => (9 * 60 + 30, 22 * 60)
  | "city" => (9 * 60, 21 * 60 + 30)
  | "departure" => (7 * 60, 12 * 60)
  | _ => (9 * 60, 21 * 60)

/-- The pattern `H[H]hMM` of `parse_time_range`, as a direct predicate: the
suffix starts with a one- or two-digit hour, `h`, and two minute digits.
`findTimeMatches` is proved complete for it below. -/
def timeTokenHere : List Char → Bool
  | c1 :: c2 :: c3 :: c4 :: c5 :: _ =>
    (c1.isDigit && c2.isDigit && c3 == 'h' && c4.isDigit && c5.isDigit) ||
    (c1.isDigit && c2 == 'h' && c3.isDigit && c4.isDigit)
  | [c1, c2, c3, c4] => c1.isDigit && c2 == 'h' && c3.isDigit && c4.isDigit
  | _ => false

/-- The string contains a substring matching `H[H]hMM` (at some offset). -/
def hasTimeToken (s : String) : Bool :=
  (List.range s.data.length).any (fun i => timeTokenHere (s.data.drop i))

/-- The `for item in day.timeline` traversal of `get_day_time_bounds`: parse
every time string, propagating the first `ValueError` (`.error`). -/
def parseTimeline : List TimelineItem → Except String (List (ℤ × ℤ))
  | [] => .ok []
  | item :: rest => do
    let p ← parse_time_range item.time
    let ps ← parseTimeline rest
    pure (p :: ps)

/-- Embeds `get_day_time_bounds`: the min start / max end over the parsed
timeline ranges (an unparsable range propagates as `.error`); the presets when
the timeline is empty (`start is math.inf`); for the "city" theme the end is
floored up to 22h30; finally the end is capped at 23h30. -/
def get_day_time_bounds (day : DaySection) : Except String (ℤ × ℤ) := do
  let parsed ← parseTimeline day.timeline
  match parsed with
  | [] => pure (themePresets day.theme)
  | p :: ps =>
    let start := ps.foldl (fun acc q => min acc q.1) p.1
    let e := ps.foldl (fun acc q => max acc q.2) p.2
    let e := if day.theme = "city" ∧ e < 22 * 60 + 30 then 22 * 60 + 30 else e
    pure (start, min e (23 * 60 + 30))

/-! ### Geometry and the travel-time estimator -/

/-- Embeds `math.radians`: degrees (held exactly as a rational) to radians. -/
noncomputable def radians (x : ℚ) : ℝ := (x : ℝ) * Real.pi / 180

/-- Embeds `haversine_km` (Earth radius 6371 km); float arithmetic is
idealised as exact real arithmetic. -/
noncomputable def haversine_km (a b : ℚ × ℚ) : ℝ :=
  let lat1 := radians a.1
  let lon1 := radians a.2
  let lat2 := radians b.1
  let lon2 := radians b.2
  let dlat := lat2 - lat1
  let dlon := lon2 - lon1
  let h := Real.sin (dlat / 2) ^ 2 +
    Real.cos lat1 * Real.cos lat2 * Real.sin (dlon / 2) ^ 2
  6371 * (2 * Real.arcsin (Real.sqrt h))

/-- Embeds Python `int(...)` on a float: truncation toward zero. -/
noncomputable def pyInt (x : ℝ) : ℤ := if 0 ≤ x then ⌊x⌋ else -⌊-x⌋

/-- Embeds `compute_centroid`: mean coordinates of the known locations of the
list, the hotel's coordinates when none is known. -/
def compute_centroid (location_names : List String) : ℚ × ℚ :=
  let known := location_names.filterMap LOCATION_MAP_get
  if known.length = 0 then
    ((LOCATION_MAP_get HOTEL_NAME).map (fun h => (h.lat, h.lon))).getD (0, 0)
  else
    ((known.map (·.lat)).sum / (known.length : ℚ),
     (known.map (·.lon)).sum / (known.length : ℚ))

/-- Embeds `distance_between`: distance from a named location to a point;
`float("inf")` for an unknown name becomes `⊤` in `WithTop ℝ`. -/
noncomputable def distance_between (location_name : String) (point : ℚ × ℚ) :
    WithTop ℝ :=
  match LOCATION_MAP_get location_name with
  | none => ⊤
  | some loc => (haversine_km (loc.lat, loc.lon) point : ℝ)

/-- Embeds `distance_between_pair`: 0 for a same-name pair, 999.0 when either
name is unknown, haversine distance otherwise. -/
noncomputable def distance_between_pair (a_name b_name : String) : ℝ :=
  if a_name = b_name then 0
  else
    match LOCATION_MAP_get a_name, LOCATION_MAP_get b_name with
    | some a, some b => haversine_km (a.lat, a.lon) (b.lat, b.lon)
    | _, _ => 999

/-- The walkable category subset used by `estimate_travel_minutes`. -/
def walkableCategory (cat : String) : Prop :=
  cat = "walk" ∨ cat = "landmark" ∨ cat = "shopping" ∨ cat = "park"

instance (cat : String) : Decidable (walkableCategory cat) := by
  unfold walkableCategory; infer_instance

/-- Embeds `estimate_travel_minutes`: 0 for a same-name pair; an override for
the ordered or reversed pair is returned verbatim; otherwise distance over an
average speed (3.8 km/h when both categories are walkable, else 5.0 km/h),
truncated to minutes and floored at 8; for an unknown endpoint, distance over
4.5 km/h plus a 5 minute buffer. -/
noncomputable def estimate_travel_minutes (a_name b_name : String) : ℤ :=
  if a_name = b_name then 0
  else
    match TRANSIT_OVERRIDES_get a_name b_name with
    | some m => m
    | none =>
      match TRANSIT_OVERRIDES_get b_name a_name with
      | some m => m
      | none =>
        let distance := distance_between_pair a_name b_name
        match LOCATION_MAP_get a_name, LOCATION_MAP_get b_name with
        | some loc_a, some loc_b =>
          let base_speed : ℝ :=
            if walkableCategory loc_a.category ∧ walkableCategory loc_b.category
            then 3.8 else 5
          max (pyInt ((distance / max base_speed 0.1) * 60)) 8
        | _, _ => pyInt (distance / 4.5 * 60) + 5

/-! ### The Day Scheduler (`build_day_schedule`) -/

/-- Embeds `describe_location`. -/
def describe_location (name : String) : String :=
  match LOCATION_DESCRIPTIONS_get name with
  | some d => d
  | none =>
    match LOCATION_MAP_get name with
    | none => ""
    | some info =>
      if info.category = "food" then "Pause gourmande en douceur."
      else if info.category = "walk" then "Balade libre pour profiter du quartier."
      else if info.category = "landmark" then
        "Point de vue iconique a decouvrir tranquillement."
      else info.category.capitalize

/-- Embeds `friendly_transfer_detail` (the `or` chain of the source: the notes
table holds no empty strings, so `or` is first-some). -/
def friendly_transfer_detail (start stop : String) (duration : ℤ) : String :=
  match TRANSFER_NOTES_get start stop with
  | some note => note
  | none =>
    match TRANSFER_NOTES_get stop start with
    | some note => note
    | none =>
      if duration ≤ 15 then "Petite marche ou trajet rapide (<= 15 min)."
      else if duration ≤ 30 then "Deplacement fluide (~30 min), prends ton temps."
      else "Prevoir ce trajet sans stress, musique ou podcast en route."

/-- Embeds the `poi_locations` filter of `build_day_schedule`: keep known
locations whose category is neither transport nor hotel. -/
def poiLocations (locations : List String) : List String :=
  locations.filter (fun loc =>
    match LOCATION_MAP_get loc with
    | none => false
    | some info => !(info.category == "transport" || info.category == "hotel"))

/-- Embeds the Oblix/Shard special case of `build_day_schedule`: when both are
present, "The Shard" is dropped from the visit candidates. -/
def dropShardIfOblix (poi : List String) : List String :=
  if "Oblix at The Shard" ∈ poi ∧ "The Shard" ∈ poi then
    poi.filter (fun loc => loc != "The Shard")
  else poi

/-- Embeds the `visits_order` construction of `build_day_schedule`: the
theme's preferred-order names present in the candidates first, then the
remaining candidates in order, then the forced Oblix finale for "city". -/
def buildVisitsOrder (theme : String) (poi : List String) : List String :=
  let vo := (PREFERRED_ORDER_get theme).foldl
    (fun acc name => if name ∈ poi ∧ name ∉ acc then acc ++ [name] else acc) []
  let vo := poi.foldl (fun acc name => if name ∉ acc then acc ++ [name] else acc) vo
  if theme = "city" ∧ "Oblix at The Shard" ∉ vo then vo ++ ["Oblix at The Shard"] else vo

/-- The transfer segment the visit loop emits before a visit (none when the
travel time is 0, `if travel_duration:` in the source). -/
def transferSegment (prev next : String) (cur travel : ℤ) : List Segment :=
  if travel ≠ 0 then
    [⟨cur, cur + travel, "Trajet vers " ++ next, prev ++ " -> " ++ next,
      friendly_transfer_detail prev next travel, "transfer"⟩]
  else []

/-- The visit duration used by the loop: `max(75, default)` for food,
`max(45, default)` otherwise, clamped to the remaining time (minimum 30)
when it would overrun the end bound. -/
def visitDuration (e cur1 : ℤ) (info : LocationInfo) : ℤ :=
  let visit0 := if info.category = "food" then max 75 info.default_duration
                else max 45 info.default_duration
  if cur1 + visit0 > e then max 30 (e - cur1) else visit0

/-- Embeds the visit-scheduling loop of `build_day_schedule`; returns the
emitted segments together with the final `previous` position and
`current_time` (the Python `break` drops the remaining candidates; a visit
whose duration would be nonpositive is skipped without updating `previous`,
as in the source's `continue`). -/
noncomputable def visitLoop (end_time : ℤ) :
    List String → String → ℤ → (List Segment × String × ℤ)
  | [], previous, current => ([], previous, current)
  | next_loc :: rest, previous, current =>
    match LOCATION_MAP_get next_loc with
    | none => visitLoop end_time rest previous current
    | some loc_info =>
      let travel := estimate_travel_minutes previous next_loc
      if current + travel > end_time then ([], previous, current)
      else
        let tsegs := transferSegment previous next_loc current travel
        let current1 := current + travel
        let visit := visitDuration end_time current1 loc_info
        if visit ≤ 0 then
          let r := visitLoop end_time rest previous current1
          (tsegs ++ r.1, r.2)
        else
          let seg : Segment := ⟨current1, current1 + visit, next_loc, next_loc,
            describe_location next_loc,
            if loc_info.category = "food" then "meal" else "visit"⟩
          let r := visitLoop end_time rest next_loc (current1 + visit)
          (tsegs ++ seg :: r.1, r.2)

/-- `LOCATION_MAP["Heathrow Airport"].default_duration` (the airport arrival
formalities time). -/
def heathrowDefaultDuration : ℤ :=
  ((LOCATION_MAP_get "Heathrow Airport").map (·.default_duration)).getD 0

/-- `LOCATION_MAP[HOTEL_NAME].default_duration` (the hotel check-in base
time). -/
def hotelDefaultDuration : ℤ :=
  ((LOCATION_MAP_get HOTEL_NAME).map (·.default_duration)).getD 0

/-- The arrival-theme prefix of `build_day_schedule`: airport arrival,
transfer to the hotel, check-in of at least 45 minutes; returns the segments
and the advanced clock. For other themes, no segments. -/
noncomputable def arrivalPrefix (theme : String) (start_time : ℤ) :
    List Segment × ℤ :=
  if theme = "arrival" then
    let t1 := start_time + heathrowDefaultDuration
    let travel := estimate_travel_minutes "Heathrow Airport" HOTEL_NAME
    let t2 := t1 + travel
    let checkin := max 45 hotelDefaultDuration
    let t3 := t2 + checkin
    ([⟨start_time, t1, "Arrivee a Heathrow", "Heathrow Airport",
        "Formalites et recuperation des valises.", "transport"⟩,
      ⟨t1, t2, "Vers l'hotel", "Heathrow Airport -> " ++ HOTEL_NAME,
        friendly_transfer_detail "Heathrow Airport" HOTEL_NAME travel, "transfer"⟩,
      ⟨t2, t3, "Installation a l'hotel", HOTEL_NAME,
        describe_location HOTEL_NAME, "visit"⟩], t3)
  else ([], start_time)

/-- The non-departure tail of `build_day_schedule`: when the day does not end
at the hotel, a return transfer, and a closing buffer when time remains;
returns the segments and the advanced clock. -/
noncomputable def returnToHotelTail (theme prev : String) (cur e : ℤ) :
    List Segment × ℤ :=
  if theme ≠ "departure" ∧ prev ≠ HOTEL_NAME then
    let travel := estimate_travel_minutes prev HOTEL_NAME
    let t := cur + travel
    let retSeg : Segment := ⟨cur, t, "Retour a l'hotel",
      prev ++ " -> " ++ HOTEL_NAME,
      friendly_transfer_detail prev HOTEL_NAME travel, "transfer"⟩
    if t < e then
      ([retSeg, ⟨t, e, "Fin de soiree detendue", HOTEL_NAME,
         "Temps libre pour un verre ou repos.", "buffer"⟩], t)
    else ([retSeg], t)
  else ([], cur)

/-- The departure-theme tail of `build_day_schedule`: return to the hotel if
needed, transfer to Heathrow, and the fixed 45 minute departure
formalities. -/
noncomputable def departureTail (theme prev : String) (cur : ℤ) : List Segment :=
  if theme = "departure" then
    let ret : List Segment × ℤ :=
      if prev ≠ HOTEL_NAME then
        let travel := estimate_travel_minutes prev HOTEL_NAME
        ([⟨cur, cur + travel, "Retour a l'hotel",
           prev ++ " -> " ++ HOTEL_NAME,
           friendly_transfer_detail prev HOTEL_NAME travel, "transfer"⟩],
         cur + travel)
      else ([], cur)
    let transfer := estimate_travel_minutes HOTEL_NAME "Heathrow Airport"
    ret.1 ++
      [⟨ret.2, ret.2 + transfer, "Transfert vers Heathrow",
         HOTEL_NAME ++ " -> Heathrow Airport",
         friendly_transfer_detail HOTEL_NAME "Heathrow Airport" transfer, "transfer"⟩,
       ⟨ret.2 + transfer, ret.2 + transfer + 45, "Formalites de depart",
         "Heathrow Airport", "Enregistrement et controle securite.", "transport"⟩]
  else []

/-- Embeds `build_day_schedule`: theme-specific arrival prefix, the visit
loop started at the hotel, the non-departure return-to-hotel transfer and
closing buffer, and the departure-day transfers and formalities. -/
noncomputable def build_day_schedule (day : DaySection) :
    Except String (List Segment) := do
  let (start_time, end_time) ← get_day_time_bounds day
  let poi := dropShardIfOblix (poiLocations day.locations)
  let pre := arrivalPrefix day.theme start_time
  let r := visitLoop end_time (buildVisitsOrder day.theme poi) HOTEL_NAME pre.2
  let tail1 := returnToHotelTail day.theme r.2.1 r.2.2 end_time
  pure (pre.1 ++ r.1 ++ tail1.1 ++ departureTail day.theme r.2.1 tail1.2)

/-! ### The Deduplicator (`merge_duplicate_locations`) -/

/-- One removal step of `merge_duplicate_locations` on one day: the hotel is
never removed from an arrival day; otherwise the first occurrence of `name`
is removed (`list.remove`) and recorded in `removed_duplicates`. -/
def removeDuplicateFrom (name : String) (day : DaySection) : DaySection :=
  if name = HOTEL_NAME ∧ day.theme = "arrival" then day
  else if name ∈ day.locations then
    { day with locations := day.locations.erase name,
               removed_duplicates := day.removed_duplicates ++ [name] }
  else day

/-- Positional in-place update `days[idx] = f (days[idx])` (out of range is
impossible for well-indexed inputs, where Python would not raise either). -/
def modifyAt : List DaySection → ℕ → (DaySection → DaySection) → List DaySection
  | [], _, _ => []
  | d :: ds, 0, f => f d :: ds
  | d :: ds, n + 1, f => d :: modifyAt ds n f

/-- One step of building the `index_by_loc` dict: append `idx` to the entry
of `name`, creating the entry at the end on first sight (insertion order). -/
def updateAssoc : List (String × List ℕ) → String → ℕ → List (String × List ℕ)
  | [], name, idx => [(name, [idx])]
  | (n, is) :: rest, name, idx =>
    if n = name then (n, is ++ [idx]) :: rest
    else (n, is) :: updateAssoc rest name idx

/-- Embeds the `index_by_loc` dict of `merge_duplicate_locations`: location
name to the list of day indices, one entry per occurrence, in iteration
(= insertion) order. -/
def indexByLoc (days : List DaySection) : List (String × List ℕ) :=
  days.foldl (fun acc day =>
    day.locations.foldl (fun a n => updateAssoc a n day.index) acc) []

/-- Embeds the `centroids` dict lookup: the centroid of the day with this
index (`day.locations or [HOTEL_NAME]` replaces an empty list by the hotel);
with duplicate indices the last day wins, as in a dict comprehension. -/
def centroidsGet (days : List DaySection) (idx : ℕ) : ℚ × ℚ :=
  match (days.filter (fun d => d.index = idx)).getLast? with
  | some d => compute_centroid (if d.locations = [] then [HOTEL_NAME] else d.locations)
  | none => compute_centroid [HOTEL_NAME]

/-- Embeds Python `min(xs, key=f)`: left fold keeping the first minimum. -/
noncomputable def pyMinBy (f : ℕ → WithTop ℝ) (x : ℕ) (xs : List ℕ) : ℕ :=
  xs.foldl (fun best y => if f y < f best then y else best) x

/-- The condition under which `merge_duplicate_locations` processes a name
(the negation of its `continue` guard): whitelisted, or known with category
transport or hotel. -/
def dedupEligible (name : String) : Bool :=
  DEDUP_WHITELIST.contains name ||
    (match LOCATION_MAP_get name with
     | some info => info.category == "transport" || info.category == "hotel"
     | none => false)

/-- The removal loop of `merge_duplicate_locations` for one duplicated name:
remove the name (once per occurrence index) from every day other than the
winning one. -/
def removalPass (name : String) (best : ℕ) (indices : List ℕ)
    (days : List DaySection) : List DaySection :=
  indices.foldl
    (fun ds idx => if idx = best then ds
      else modifyAt ds idx (removeDuplicateFrom name)) days

/-- Processing of one `index_by_loc` entry by `merge_duplicate_locations`:
skip singletons and ineligible names, otherwise remove the name from every
day other than the one whose centroid is nearest (first minimum). -/
noncomputable def processEntry (cent : ℕ → ℚ × ℚ) (days : List DaySection) :
    String × List ℕ → List DaySection
  | (_, []) => days
  | (_, [_]) => days
  | (name, i :: is) =>
    if dedupEligible name then
      removalPass name (pyMinBy (fun idx => distance_between name (cent idx)) i is)
        (i :: is) days
    else days

/-- Embeds `merge_duplicate_locations` (in-place mutation of the day list
becomes a function to a new day list); centroids are computed once from the
input days, before any removal. -/
noncomputable def merge_duplicate_locations (days : List DaySection) :
    List DaySection :=
  (indexByLoc days).foldl (processEntry (centroidsGet days)) days

/-- Number of days whose locations list contains `name`. -/
def countDaysWith (name : String) (days : List DaySection) : ℕ :=
  (days.filter (fun d => d.locations.contains name)).length

/-- The day list is indexed by position, the invariant the parser establishes
(`index=len(days)` at creation) and every pipeline stage preserves. -/
def WellIndexed (days : List DaySection) : Prop :=
  days.map DaySection.index = List.range days.length

instance (days : List DaySection) : Decidable (WellIndexed days) := by
  unfold WellIndexed; infer_instance

/-- The segments form a gapless chain: starting at the first time, each
segment starts where the previous one ended and does not end before it
starts; the second time is where the chain ends. -/
def ChainedFromTo : ℤ → List Segment → ℤ → Prop
  | t, [], u => t = u
  | t, s :: rest, u => s.start = t ∧ s.start ≤ s.stop ∧ ChainedFromTo s.stop rest u

/-- The titles of the transfer segments `build_day_schedule` synthesizes
outside its visit loop (arrival leg, return to hotel, departure leg); loop
transfers are titled "Trajet vers ...". -/
def synthTransferTitles : List String :=
  ["Vers l'hotel", "Retour a l'hotel", "Transfert vers Heathrow"]

/-- The stream of (location name, day index) occurrence pairs in pipeline
order; `indexByLoc` is its left fold through `updateAssoc`. -/
def occStream (days : List DaySection) : List (String × ℕ) :=
  days.flatMap (fun d => d.locations.map (fun n => (n, d.index)))

/-- The day indices at which `name` occurs in an occurrence stream, in
order. -/
def occList (l : List (String × ℕ)) (name : String) : List ℕ :=
  (l.filter (fun p => p.1 = name)).map (·.2)

/-- First-match association lookup on the accumulator of `indexByLoc`. -/
def lookupA (acc : List (String × List ℕ)) (name : String) : List ℕ :=
  match acc.find? (fun p => p.1 = name) with
  | some p => p.2
  | none => []

/-- Number of occurrences of `name` in the locations of the day at position
`p` (0 when out of range). -/
def dayCount (ds : List DaySection) (p : ℕ) (name : String) : ℕ :=
  ((ds.get? p).map (fun d => d.locations.count name)).getD 0

/-- The occurrence-index list of `name` over the days: each day contributes
its index once per occurrence, in day order. -/
def occIdx (days : List DaySection) (name : String) : List ℕ :=
  days.flatMap (fun d => List.replicate (d.locations.count name) d.index)

/-- The bound discipline each scheduled segment actually satisfies (the
amended C1): loop transfers stay within the end bound, visits and meals may
overrun it only through the 30-minute clamp floor, buffers end at the bound;
the synthesized transfers (titles in `synthTransferTitles`), the transport
segments and the arrival check-in are not checked against the bound. -/
def SegmentBoundOk (e : ℤ) (seg : Segment) : Prop :=
  (seg.segment_type = "transfer" ∧ seg.title ∉ synthTransferTitles →
    seg.stop ≤ e) ∧
  ((seg.segment_type = "visit" ∨ seg.segment_type = "meal") ∧
      seg.location ≠ HOTEL_NAME →
    seg.stop ≤ max e (seg.start + 30)) ∧
  (seg.segment_type = "buffer" → seg.stop ≤ e)

/-- A concrete three-day trip used to exercise `merge_duplicate_locations`
twice: an arrival day listing the hotel and a whitelisted promenade, a city
day listing only the hotel, and a mayfair day listing only the promenade. -/
def tripDays0 : List DaySection :=
  [⟨0, "", "arrival", [], [], ["citizenM London Bankside", "South Bank Promenade"], [], []⟩,
   ⟨1, "", "city", [], [], ["citizenM London Bankside"], [], []⟩,
   ⟨2, "", "mayfair", [], [], ["South Bank Promenade"], [], []⟩]

/-- The result of the first `merge_duplicate_locations` run on `tripDays0`:
the promenade is removed from the arrival day (day 2's centroid is exactly
the promenade), while the hotel survives on both day 0 (arrival-day
exception) and day 1. -/
def tripDays1 : List DaySection :=
  [⟨0, "", "arrival", [], [], ["citizenM London Bankside"], ["South Bank Promenade"], []⟩,
   ⟨1, "", "city", [], [], ["citizenM London Bankside"], [], []⟩,
   ⟨2, "", "mayfair", [], [], ["South Bank Promenade"], [], []⟩]

/-- The result of the second run: both remaining centroids for the hotel now
coincide with the hotel itself, the argmin falls back to the first index
(day 0), and the hotel is removed from the non-arrival day 1. -/
def tripDays2 : List DaySection :=
  [⟨0, "", "arrival", [], [], ["citizenM London Bankside"], ["South Bank Promenade"], []⟩,
   ⟨1, "", "city", [], [], [], ["citizenM London Bankside"], []⟩,
   ⟨2, "", "mayfair", [], [], ["South Bank Promenade"], [], []⟩]

/-! ## Theorems -/

/-! ### C3: city day end bound -/

theorem parseTimeline_ok_length {l : List TimelineItem} {ps : List (ℤ × ℤ)}
    (h : parseTimeline l = .ok ps) : ps.length = l.length := by
  induction l generalizing ps with
  | nil => simp [parseTimeline] at h; simp [← h]
  | cons item rest ih =>
    simp only [parseTimeline, bind, Except.bind] at h
    cases hp : parse_time_range item.time with
    | error m => rw [hp] at h; exact absurd h (by simp)
    | ok p =>
      rw [hp] at h
      cases hr : parseTimeline rest with
      | error m => rw [hr] at h; exact absurd h (by simp)
      | ok qs =>
        rw [hr] at h
        simp only [pure, Except.pure, Except.ok.injEq] at h
        subst h
        simp [ih hr]

/-- C3, counterexample: a "city" day with no timeline entries gets the theme
preset window whose end bound is 21h30 = 1290 minutes, below the claimed
minimum of 22h30 = 1350 minutes (the 22h30 floor of `get_day_time_bounds` is
applied only after at least one timeline range was parsed). -/
theorem C3_counterexample :
    get_day_time_bounds ⟨0, "", "city", [], [], [], [], []⟩ = .ok (540, 1290) ∧
      (1290 : ℤ) < 1350 :=
  ⟨rfl, by norm_num⟩

/-- C3 (amended): for every day whose theme is "city" and whose timeline is
nonempty, a successfully computed end bound lies between 22h30 (1350) and
23h30 (1410); with an empty timeline the preset (540, 1290) is returned
instead and the 22h30 floor is skipped. -/
theorem C3_city_end_bound (day : DaySection) (s e : ℤ)
    (hth : day.theme = "city") (hne : day.timeline ≠ [])
    (hok : get_day_time_bounds day = .ok (s, e)) :
    1350 ≤ e ∧ e ≤ 1410 := by
  simp only [get_day_time_bounds, bind, Except.bind] at hok
  cases hp : parseTimeline day.timeline with
  | error m => rw [hp] at hok; exact absurd hok (by simp)
  | ok parsed =>
    rw [hp] at hok
    cases parsed with
    | nil =>
      have hlen := parseTimeline_ok_length hp
      simp only [List.length_nil] at hlen
      exact absurd (List.length_eq_zero.mp hlen.symm) hne
    | cons p ps =>
      simp only [pure, Except.pure, Except.ok.injEq, Prod.mk.injEq] at hok
      obtain ⟨-, he⟩ := hok
      subst he
      constructor
      · by_cases hc : ps.foldl (fun acc q => max acc q.2) p.2 < 22 * 60 + 30
        · rw [if_pos ⟨hth, hc⟩]; norm_num
        · rw [if_neg (fun h => hc h.2)]
          push_neg at hc
          refine le_min (by omega) (by norm_num)
      · exact min_le_right _ _

/-- C3 witness: the amended theorem applied to a concrete city day with one
timeline range. -/
theorem C3_witness : (1350 : ℤ) ≤ 1350 ∧ (1350 : ℤ) ≤ 1410 :=
  C3_city_end_bound ⟨0, "", "city", [], [⟨"15h00-16h00", "", ""⟩], [], [], []⟩
    900 1350 rfl (by simp) rfl

/-! ### C7: malformed time strings are a hard failure -/

theorem dashChar_isDigit (c : Char) : (dashChar c).isDigit = c.isDigit := by
  unfold dashChar
  split
  · rename_i h; rcases h with h | h <;> subst h <;> decide
  · rfl

theorem dashChar_beq_h (c : Char) : (dashChar c == 'h') = (c == 'h') := by
  unfold dashChar
  split
  · rename_i h; rcases h with h | h <;> subst h <;> decide
  · rfl

theorem timeTokenHere_dashNormalize (cs : List Char) :
    timeTokenHere (dashNormalize cs) = timeTokenHere cs := by
  unfold dashNormalize
  match cs with
  | [] => rfl
  | [c1] => rfl
  | [c1, c2] => rfl
  | [c1, c2, c3] => rfl
  | [c1, c2, c3, c4] =>
    simp only [List.map_cons, List.map_nil, timeTokenHere, dashChar_isDigit, dashChar_beq_h]
  | c1 :: c2 :: c3 :: c4 :: c5 :: rest =>
    simp only [List.map_cons, timeTokenHere, dashChar_isDigit, dashChar_beq_h]

theorem findTimeMatches_eq_nil_aux (n : ℕ) :
    ∀ cs : List Char, cs.length ≤ n →
      (∀ i, timeTokenHere (cs.drop i) = false) → findTimeMatches cs = [] := by
  induction n with
  | zero =>
    intro cs hlen _
    have : cs = [] := List.eq_nil_of_length_eq_zero (Nat.le_zero.mp hlen)
    subst this; rfl
  | succ n ih =>
    intro cs hlen h
    match cs with
    | [] => rfl
    | [c1] => rfl
    | [c1, c2] =>
      rw [findTimeMatches]
      exact ih [c2] (by simp at hlen ⊢; omega) (fun i => by simpa using h (i + 1))
    | [c1, c2, c3] =>
      rw [findTimeMatches]
      exact ih [c2, c3] (by simp at hlen ⊢; omega) (fun i => by simpa using h (i + 1))
    | [c1, c2, c3, c4] =>
      rw [findTimeMatches, if_neg]
      · exact ih [c2, c3, c4] (by simp at hlen ⊢; omega)
          (fun i => by simpa using h (i + 1))
      · intro hc
        have h0 := h 0
        simp only [List.drop_zero, timeTokenHere] at h0
        rw [show c1.isDigit = true from hc.1, show (c2 == 'h') = true from beq_iff_eq.mpr hc.2.1,
          show c3.isDigit = true from hc.2.2.1, show c4.isDigit = true from hc.2.2.2] at h0
        simp at h0
    | c1 :: c2 :: c3 :: c4 :: c5 :: rest =>
      have h0 := h 0
      simp only [List.drop_zero, timeTokenHere, Bool.or_eq_false_iff] at h0
      rw [findTimeMatches, if_neg, if_neg]
      · exact ih (c2 :: c3 :: c4 :: c5 :: rest) (by simp at hlen ⊢; omega)
          (fun i => by simpa using h (i + 1))
      · intro hc
        have := h0.2
        rw [show c1.isDigit = true from hc.1, show (c2 == 'h') = true from beq_iff_eq.mpr hc.2.1,
          show c3.isDigit = true from hc.2.2.1, show c4.isDigit = true from hc.2.2.2] at this
        simp at this
      · intro hc
        have := h0.1
        rw [show c1.isDigit = true from hc.1, show c2.isDigit = true from hc.2.1,
          show (c3 == 'h') = true from beq_iff_eq.mpr hc.2.2.1,
          show c4.isDigit = true from hc.2.2.2.1, show c5.isDigit = true from hc.2.2.2.2] at this
        simp at this

theorem findTimeMatches_eq_nil (cs : List Char)
    (h : ∀ i, timeTokenHere (cs.drop i) = false) : findTimeMatches cs = [] :=
  findTimeMatches_eq_nil_aux cs.length cs le_rfl h

theorem parse_time_range_error (s : String) (h : hasTimeToken s = false) :
    parse_time_range s = .error "Format dheure inattendu" := by
  have hall : ∀ i, timeTokenHere (s.data.drop i) = false := by
    intro i
    by_cases hi : i < s.data.length
    · simp only [hasTimeToken, List.any_eq_false, List.mem_range] at h
      simpa using h i hi
    · rw [List.drop_eq_nil_of_le (by omega)]
      rfl
  have hall2 : ∀ i, timeTokenHere ((dashNormalize s.data).drop i) = false := by
    intro i
    rw [dashNormalize, ← List.map_drop]
    rw [show (s.data.drop i).map dashChar = dashNormalize (s.data.drop i) from rfl]
    rw [timeTokenHere_dashNormalize]
    exact hall i
  unfold parse_time_range
  rw [findTimeMatches_eq_nil _ hall2]

theorem parseTimeline_isOk_false {l : List TimelineItem} {item : TimelineItem}
    (hmem : item ∈ l) (h : (parse_time_range item.time).isOk = false) :
    (parseTimeline l).isOk = false := by
  induction l with
  | nil => exact absurd hmem (by simp)
  | cons a rest ih =>
    simp only [parseTimeline, bind, Except.bind]
    cases hp : parse_time_range a.time with
    | error m => rfl
    | ok p =>
      rcases List.mem_cons.mp hmem with rfl | hmem'
      · rw [hp] at h; exact absurd h (by simp [Except.isOk, Except.toBool])
      · cases hr : parseTimeline rest with
        | error m => rfl
        | ok qs => rw [hr] at ih; exact absurd (ih hmem') (by simp [Except.isOk, Except.toBool])

/-- C7: `parse_time_range` fails (returns the validation error, never a
default) on every string with no `H[H]hMM` substring, and
`get_day_time_bounds` fails on any day whose timeline holds such a time
string. -/
theorem C7_malformed_time_fails (t : String) (day : DaySection)
    (item : TimelineItem) (h : hasTimeToken t = false)
    (hmem : item ∈ day.timeline) (htime : item.time = t) :
    parse_time_range t = .error "Format dheure inattendu" ∧
      (get_day_time_bounds day).isOk = false := by
  refine ⟨parse_time_range_error t h, ?_⟩
  have hpl : (parseTimeline day.timeline).isOk = false :=
    parseTimeline_isOk_false hmem
      (by rw [htime, parse_time_range_error t h]; rfl)
  simp only [get_day_time_bounds, bind, Except.bind]
  cases hp : parseTimeline day.timeline with
  | error m => rfl
  | ok ps => rw [hp] at hpl; exact absurd hpl (by simp [Except.isOk, Except.toBool])

/-- C7 witness: the malformed token "abc" aborts both the range parse and the
bounds computation of a day whose timeline holds it. -/
theorem C7_witness :
    parse_time_range "abc" = .error "Format dheure inattendu" ∧
      (get_day_time_bounds ⟨0, "", "city", [], [⟨"abc", "", ""⟩], [], [], []⟩).isOk = false :=
  C7_malformed_time_fails "abc" ⟨0, "", "city", [], [⟨"abc", "", ""⟩], [], [], []⟩
    ⟨"abc", "", ""⟩ rfl (by simp) rfl

/-! ### C5: travel-time estimator is symmetric without overrides -/

theorem haversine_km_comm (a b : ℚ × ℚ) : haversine_km a b = haversine_km b a := by
  unfold haversine_km
  have h1 : ∀ x y : ℝ, Real.sin ((x - y) / 2) ^ 2 = Real.sin ((y - x) / 2) ^ 2 := by
    intro x y
    rw [show (x - y) / 2 = -((y - x) / 2) by ring, Real.sin_neg, neg_sq]
  simp only []
  rw [h1, h1 (radians b.2), mul_comm (Real.cos (radians a.1))]

theorem LOCATION_MAP_get_of_mem {name : String}
    (h : name ∈ LOCATION_LIBRARY.map LocationInfo.name) :
    ∃ info, LOCATION_MAP_get name = some info := by
  obtain ⟨info, hinfo, hname⟩ := List.mem_map.mp h
  have hsome : (LOCATION_LIBRARY.find? fun i => i.name = name).isSome :=
    List.find?_isSome.mpr ⟨info, hinfo, by simp [hname]⟩
  exact Option.isSome_iff_exists.mp hsome

theorem distance_between_pair_comm (a b : String) :
    distance_between_pair a b = distance_between_pair b a := by
  by_cases hab : a = b
  · subst hab; rfl
  · unfold distance_between_pair
    rw [if_neg hab, if_neg (fun h => hab h.symm)]
    cases ha : LOCATION_MAP_get a <;> cases hb : LOCATION_MAP_get b <;>
      simp only [haversine_km_comm]

/-- C5: for catalog names, the estimate of a same-name pair is 0, and the
estimate is symmetric whenever no directional override exists in either
order. -/
theorem C5_estimate_symmetric (a b : String)
    (ha : a ∈ LOCATION_LIBRARY.map LocationInfo.name)
    (hb : b ∈ LOCATION_LIBRARY.map LocationInfo.name)
    (hov1 : TRANSIT_OVERRIDES_get a b = none)
    (hov2 : TRANSIT_OVERRIDES_get b a = none) :
    estimate_travel_minutes a a = 0 ∧
      estimate_travel_minutes a b = estimate_travel_minutes b a := by
  refine ⟨by unfold estimate_travel_minutes; rw [if_pos rfl], ?_⟩
  by_cases hab : a = b
  · subst hab; rfl
  · obtain ⟨la, hla⟩ := LOCATION_MAP_get_of_mem ha
    obtain ⟨lb, hlb⟩ := LOCATION_MAP_get_of_mem hb
    unfold estimate_travel_minutes
    rw [if_neg hab, if_neg (fun h => hab h.symm), hov1, hov2, hla, hlb,
      distance_between_pair_comm]
    dsimp only
    rw [show (if walkableCategory la.category ∧ walkableCategory lb.category
          then (3.8 : ℝ) else 5) =
        (if walkableCategory lb.category ∧ walkableCategory la.category
          then (3.8 : ℝ) else 5) from if_congr and_comm rfl rfl]

/-- C5 witness: the symmetry theorem applied to the concrete catalog pair
(London Eye, Tower Bridge), which has no override. -/
theorem C5_witness :
    estimate_travel_minutes "London Eye" "London Eye" = 0 ∧
      estimate_travel_minutes "London Eye" "Tower Bridge" =
        estimate_travel_minutes "Tower Bridge" "London Eye" :=
  C5_estimate_symmetric "London Eye" "Tower Bridge" (by decide) (by decide) rfl rfl

/-! ### Scheduler infrastructure -/

theorem TRANSIT_OVERRIDES_get_nonneg {a b : String} {m : ℤ}
    (h : TRANSIT_OVERRIDES_get a b = some m) : 0 ≤ m := by
  unfold TRANSIT_OVERRIDES_get at h
  cases hf : TRANSIT_OVERRIDES.find? (fun e => e.1.1 = a ∧ e.1.2 = b) with
  | none => rw [hf] at h; exact absurd h (by simp)
  | some entry =>
    rw [hf] at h
    simp only [Option.map_some'] at h
    have hmem := List.mem_of_find?_eq_some hf
    have hm : entry.2 = m := by simpa using h
    subst hm
    simp only [TRANSIT_OVERRIDES, List.mem_cons, List.not_mem_nil, or_false] at hmem
    rcases hmem with h1 | h1 | h1 | h1 | h1 | h1 <;> subst h1 <;> norm_num

theorem pyInt_nonneg {x : ℝ} (h : 0 ≤ x) : 0 ≤ pyInt x := by
  unfold pyInt
  rw [if_pos h]
  exact Int.floor_nonneg.mpr h

theorem estimate_travel_minutes_nonneg (a b : String) :
    0 ≤ estimate_travel_minutes a b := by
  unfold estimate_travel_minutes
  split
  · exact le_refl 0
  · rename_i hab
    cases h1 : TRANSIT_OVERRIDES_get a b with
    | some m => exact TRANSIT_OVERRIDES_get_nonneg h1
    | none =>
      cases h2 : TRANSIT_OVERRIDES_get b a with
      | some m => exact TRANSIT_OVERRIDES_get_nonneg h2
      | none =>
        have h999 : ∀ hA : LOCATION_MAP_get a = none ∨ LOCATION_MAP_get b = none,
            distance_between_pair a b = 999 := by
          intro hA
          unfold distance_between_pair
          rw [if_neg hab]
          cases hx : LOCATION_MAP_get a <;> cases hy : LOCATION_MAP_get b <;> simp_all
        cases ha : LOCATION_MAP_get a <;> cases hb : LOCATION_MAP_get b <;> dsimp only
        · rw [h999 (Or.inl ha)]
          have : (0 : ℝ) ≤ 999 / 4.5 * 60 := by norm_num
          have := pyInt_nonneg this
          omega
        · rw [h999 (Or.inl ha)]
          have : (0 : ℝ) ≤ 999 / 4.5 * 60 := by norm_num
          have := pyInt_nonneg this
          omega
        · rw [h999 (Or.inr hb)]
          have : (0 : ℝ) ≤ 999 / 4.5 * 60 := by norm_num
          have := pyInt_nonneg this
          omega
        · exact le_trans (by norm_num) (le_max_right _ 8)

theorem chainedFromTo_append {t u v : ℤ} {l1 l2 : List Segment}
    (h1 : ChainedFromTo t l1 u) (h2 : ChainedFromTo u l2 v) :
    ChainedFromTo t (l1 ++ l2) v := by
  induction l1 generalizing t with
  | nil =>
    simp only [ChainedFromTo] at h1
    subst h1
    simpa using h2
  | cons s rest ih =>
    obtain ⟨ha, hb, hc⟩ := h1
    exact ⟨ha, hb, ih hc⟩

theorem chainedFromTo_chain' {t u : ℤ} {l : List Segment}
    (h : ChainedFromTo t l u) :
    List.Chain' (fun a b => a.stop = b.start) l := by
  induction l generalizing t with
  | nil => simp
  | cons s rest ih =>
    obtain ⟨ha, hb, hc⟩ := h
    cases rest with
    | nil => simp
    | cons s2 r2 =>
      obtain ⟨ha2, hb2, hc2⟩ := hc
      exact List.chain'_cons.mpr ⟨ha2.symm, ih ⟨ha2, hb2, hc2⟩⟩

theorem chainedFromTo_start_le_stop {t u : ℤ} {l : List Segment}
    (h : ChainedFromTo t l u) : ∀ s ∈ l, s.start ≤ s.stop := by
  induction l generalizing t with
  | nil => simp
  | cons s rest ih =>
    obtain ⟨ha, hb, hc⟩ := h
    intro x hx
    rcases List.mem_cons.mp hx with rfl | hx'
    · exact hb
    · exact ih hc x hx'

theorem visitDuration_pos (e cur1 : ℤ) (info : LocationInfo) :
    0 < visitDuration e cur1 info := by
  unfold visitDuration
  dsimp only
  split <;> split
  · exact lt_of_lt_of_le (by norm_num) (le_max_left 30 _)
  · exact lt_of_lt_of_le (by norm_num) (le_max_left 75 _)
  · exact lt_of_lt_of_le (by norm_num) (le_max_left 30 _)
  · exact lt_of_lt_of_le (by norm_num) (le_max_left 45 _)

theorem transferSegment_chained (prev next : String) (cur travel : ℤ)
    (h : 0 ≤ travel) :
    ChainedFromTo cur (transferSegment prev next cur travel) (cur + travel) := by
  unfold transferSegment
  split
  · exact ⟨rfl, by dsimp only; omega, rfl⟩
  · rename_i htr
    push_neg at htr
    show cur = cur + travel
    omega

theorem visitLoop_chained (e : ℤ) (visits : List String) :
    ∀ (prev : String) (cur : ℤ),
      ChainedFromTo cur (visitLoop e visits prev cur).1
        (visitLoop e visits prev cur).2.2 := by
  induction visits with
  | nil => intro prev cur; rfl
  | cons next rest ih =>
    intro prev cur
    rw [visitLoop]
    cases hl : LOCATION_MAP_get next with
    | none => exact ih prev cur
    | some info =>
      dsimp only
      have htr0 : 0 ≤ estimate_travel_minutes prev next :=
        estimate_travel_minutes_nonneg prev next
      split
      · rfl
      · rw [if_neg (not_le.mpr (visitDuration_pos e _ info))]
        refine chainedFromTo_append (transferSegment_chained prev next cur _ htr0)
          ⟨rfl, ?_, ih next _⟩
        dsimp only
        have := visitDuration_pos e (cur + estimate_travel_minutes prev next) info
        omega

theorem visitLoop_seg_bounds (e : ℤ) (visits : List String) :
    ∀ (prev : String) (cur : ℤ) (s : Segment),
      s ∈ (visitLoop e visits prev cur).1 →
      (s.segment_type = "transfer" → s.stop ≤ e) ∧
      ((s.segment_type = "visit" ∨ s.segment_type = "meal") →
        s.stop ≤ max e (s.start + 30)) ∧
      s.segment_type ≠ "buffer" := by
  induction visits with
  | nil => intro prev cur s hs; simp [visitLoop] at hs
  | cons next rest ih =>
    intro prev cur s hs
    rw [visitLoop] at hs
    cases hl : LOCATION_MAP_get next with
    | none => rw [hl] at hs; exact ih prev cur s hs
    | some info =>
      rw [hl] at hs
      dsimp only at hs
      by_cases hbreak : cur + estimate_travel_minutes prev next > e
      · rw [if_pos hbreak] at hs; simp at hs
      · rw [if_neg hbreak] at hs
        rw [if_neg (not_le.mpr (visitDuration_pos e _ info))] at hs
        push_neg at hbreak
        rcases List.mem_append.mp hs with hts | hrest
        · unfold transferSegment at hts
          split at hts
          · simp only [List.mem_singleton] at hts
            subst hts
            refine ⟨fun _ => hbreak, fun hvm => ?_, by simp⟩
            rcases hvm with hvm | hvm <;> simp at hvm
          · simp at hts
        · rcases List.mem_cons.mp hrest with rfl | hr
          · refine ⟨?_, ?_, ?_⟩
            · intro ht
              dsimp only at ht
              split at ht <;> exact absurd ht (by decide)
            · intro _
              dsimp only
              unfold visitDuration
              dsimp only
              split
              · omega
              · rename_i hov
                push_neg at hov
                omega
            · dsimp only
              split <;> simp
          · exact ih next _ s hr

theorem visitLoop_visit_mem (e : ℤ) (visits : List String) :
    ∀ (prev : String) (cur : ℤ) (s : Segment),
      s ∈ (visitLoop e visits prev cur).1 →
      (s.segment_type = "visit" ∨ s.segment_type = "meal") →
      s.location ∈ visits := by
  induction visits with
  | nil => intro prev cur s hs; simp [visitLoop] at hs
  | cons next rest ih =>
    intro prev cur s hs hvm
    rw [visitLoop] at hs
    cases hl : LOCATION_MAP_get next with
    | none => rw [hl] at hs; exact List.mem_cons_of_mem _ (ih prev cur s hs hvm)
    | some info =>
      rw [hl] at hs
      dsimp only at hs
      by_cases hbreak : cur + estimate_travel_minutes prev next > e
      · rw [if_pos hbreak] at hs; simp at hs
      · rw [if_neg hbreak] at hs
        rw [if_neg (not_le.mpr (visitDuration_pos e _ info))] at hs
        rcases List.mem_append.mp hs with hts | hrest
        · unfold transferSegment at hts
          split at hts
          · simp only [List.mem_singleton] at hts
            subst hts
            rcases hvm with hvm | hvm <;> simp at hvm
          · simp at hts
        · rcases List.mem_cons.mp hrest with rfl | hr
          · exact List.mem_cons_self _ _
          · exact List.mem_cons_of_mem _ (ih next _ s hr hvm)

theorem heathrowDefaultDuration_eq : heathrowDefaultDuration = 30 := rfl

theorem hotelDefaultDuration_eq : hotelDefaultDuration = 30 := rfl

theorem estimate_heathrow_hotel :
    estimate_travel_minutes "Heathrow Airport" HOTEL_NAME = 75 := rfl

theorem estimate_hotel_heathrow :
    estimate_travel_minutes HOTEL_NAME "Heathrow Airport" = 75 := rfl

theorem arrivalPrefix_chained (theme : String) (s : ℤ) :
    ChainedFromTo s (arrivalPrefix theme s).1 (arrivalPrefix theme s).2 := by
  unfold arrivalPrefix
  split
  · dsimp only
    have h30 : (0 : ℤ) ≤ heathrowDefaultDuration := by
      rw [heathrowDefaultDuration_eq]; norm_num
    have h75 : 0 ≤ estimate_travel_minutes "Heathrow Airport" HOTEL_NAME :=
      estimate_travel_minutes_nonneg _ _
    have h45 : (45 : ℤ) ≤ max 45 hotelDefaultDuration := le_max_left _ _
    refine ⟨rfl, ?_, rfl, ?_, rfl, ?_, rfl⟩ <;> (dsimp only; omega)
  · rfl

theorem tails_chained (th p : String) (cur e : ℤ) :
    ∃ u, ChainedFromTo cur
      ((returnToHotelTail th p cur e).1 ++
        departureTail th p (returnToHotelTail th p cur e).2) u := by
  have hret := estimate_travel_minutes_nonneg p HOTEL_NAME
  have hdep := estimate_travel_minutes_nonneg HOTEL_NAME "Heathrow Airport"
  by_cases hd : th = "departure"
  · have h1 : returnToHotelTail th p cur e = ([], cur) := by
      unfold returnToHotelTail
      rw [if_neg (fun hc => hc.1 hd)]
    rw [h1]
    dsimp only
    rw [List.nil_append]
    unfold departureTail
    rw [if_pos hd]
    dsimp only
    by_cases hp : p ≠ HOTEL_NAME
    · rw [if_pos hp]
      dsimp only
      refine ⟨_, rfl, ?_, rfl, ?_, rfl, ?_, rfl⟩ <;> dsimp only <;> omega
    · rw [if_neg hp]
      dsimp only
      rw [List.nil_append]
      refine ⟨_, rfl, ?_, rfl, ?_, rfl⟩ <;> dsimp only <;> omega
  · have h2 : departureTail th p (returnToHotelTail th p cur e).2 = [] := by
      unfold departureTail; rw [if_neg hd]
    rw [h2, List.append_nil]
    unfold returnToHotelTail
    by_cases hp : p ≠ HOTEL_NAME
    · rw [if_pos ⟨hd, hp⟩]
      dsimp only
      split
      · rename_i hlt
        refine ⟨e, rfl, ?_, rfl, ?_, rfl⟩ <;> dsimp only <;> omega
      · refine ⟨cur + estimate_travel_minutes p HOTEL_NAME, rfl, ?_, rfl⟩
        dsimp only; omega
    · rw [if_neg (fun hc => hp hc.2)]
      exact ⟨cur, rfl⟩

/-- C8: for every day (whose bounds compute), the schedule is contiguous and
non-overlapping: each segment starts exactly where the previous one ends, and
no segment ends before it starts. -/
theorem C8_segments_contiguous (day : DaySection) (s e : ℤ)
    (h : get_day_time_bounds day = .ok (s, e)) :
    ∃ segs, build_day_schedule day = .ok segs ∧
      List.Chain' (fun a b => a.stop = b.start) segs ∧
      ∀ seg ∈ segs, seg.start ≤ seg.stop := by
  unfold build_day_schedule
  rw [h]
  simp only [bind, Except.bind, pure, Except.pure]
  refine ⟨_, rfl, ?_⟩
  rw [List.append_assoc, List.append_assoc]
  obtain ⟨u, hu⟩ := tails_chained day.theme
    (visitLoop e (buildVisitsOrder day.theme (dropShardIfOblix (poiLocations day.locations)))
      HOTEL_NAME (arrivalPrefix day.theme s).2).2.1
    (visitLoop e (buildVisitsOrder day.theme (dropShardIfOblix (poiLocations day.locations)))
      HOTEL_NAME (arrivalPrefix day.theme s).2).2.2 e
  have hchain := chainedFromTo_append (arrivalPrefix_chained day.theme s)
    (chainedFromTo_append (visitLoop_chained e _ HOTEL_NAME _) hu)
  exact ⟨chainedFromTo_chain' hchain, chainedFromTo_start_le_stop hchain⟩

/-- C8 witness: the contiguity theorem applied to a concrete mayfair day. -/
theorem C8_witness :
    ∃ segs, build_day_schedule ⟨0, "", "mayfair", [], [], [], [], []⟩ = .ok segs ∧
      List.Chain' (fun a b => a.stop = b.start) segs ∧
      ∀ seg ∈ segs, seg.start ≤ seg.stop :=
  C8_segments_contiguous ⟨0, "", "mayfair", [], [], [], [], []⟩ 570 1320 rfl

/-! ### C1: segments against the day end bound -/

theorem arrivalPrefix_boundOk (th : String) (s e : ℤ) :
    ∀ seg ∈ (arrivalPrefix th s).1, SegmentBoundOk e seg := by
  intro seg hseg
  unfold arrivalPrefix at hseg
  split at hseg
  · simp only [List.mem_cons, List.not_mem_nil, or_false] at hseg
    rcases hseg with rfl | rfl | rfl
    · refine ⟨fun h => ?_, fun h => ?_, fun h => ?_⟩
      · have := h.1; simp at this
      · rcases h.1 with h1 | h1 <;> simp at h1
      · simp at h
    · refine ⟨fun h => absurd (by simp [synthTransferTitles]) h.2, fun h => ?_, fun h => ?_⟩
      · rcases h.1 with h1 | h1 <;> simp at h1
      · simp at h
    · refine ⟨fun h => ?_, fun h => absurd rfl h.2, fun h => ?_⟩
      · have := h.1; simp at this
      · simp at h
  · simp at hseg

theorem returnToHotelTail_boundOk (th p : String) (cur e : ℤ) :
    ∀ seg ∈ (returnToHotelTail th p cur e).1, SegmentBoundOk e seg := by
  intro seg hseg
  unfold returnToHotelTail at hseg
  split at hseg
  · dsimp only at hseg
    split at hseg
    · simp only [List.mem_cons, List.not_mem_nil, or_false] at hseg
      rcases hseg with rfl | rfl
      · refine ⟨fun h => absurd (by simp [synthTransferTitles]) h.2, fun h => ?_, fun h => ?_⟩
        · rcases h.1 with h1 | h1 <;> simp at h1
        · simp at h
      · refine ⟨fun h => ?_, fun h => ?_, fun _ => le_refl e⟩
        · have := h.1; simp at this
        · rcases h.1 with h1 | h1 <;> simp at h1
    · simp only [List.mem_singleton] at hseg
      subst hseg
      refine ⟨fun h => absurd (by simp [synthTransferTitles]) h.2, fun h => ?_, fun h => ?_⟩
      · rcases h.1 with h1 | h1 <;> simp at h1
      · simp at h
  · simp at hseg

theorem departureTail_boundOk (th p : String) (cur e : ℤ) :
    ∀ seg ∈ departureTail th p cur, SegmentBoundOk e seg := by
  intro seg hseg
  unfold departureTail at hseg
  split at hseg
  · dsimp only at hseg
    rcases List.mem_append.mp hseg with h1 | h2
    · split at h1
      · simp only [List.mem_singleton] at h1
        subst h1
        refine ⟨fun h => absurd (by simp [synthTransferTitles]) h.2, fun h => ?_, fun h => ?_⟩
        · rcases h.1 with h1 | h1 <;> simp at h1
        · simp at h
      · simp at h1
    · simp only [List.mem_cons, List.not_mem_nil, or_false] at h2
      rcases h2 with rfl | rfl
      · refine ⟨fun h => absurd (by simp [synthTransferTitles]) h.2, fun h => ?_, fun h => ?_⟩
        · rcases h.1 with h1 | h1 <;> simp at h1
        · simp at h
      · refine ⟨fun h => ?_, fun h => ?_, fun h => ?_⟩
        · have := h.1; simp at this
        · rcases h.1 with h1 | h1 <;> simp at h1
        · simp at h
  · simp at hseg

/-- C1, counterexample: on an arrival day whose timeline window is
15h00-16h00, the synthesized transfer-to-hotel segment ends at 16h45 = 1005,
beyond the day end bound 960, so the scheduler does produce segments
exceeding the computed bounds. -/
theorem C1_counterexample :
    get_day_time_bounds ⟨0, "", "arrival", [], [⟨"15h00-16h00", "", ""⟩], [], [], []⟩ =
        .ok (900, 960) ∧
      ∃ segs,
        build_day_schedule ⟨0, "", "arrival", [], [⟨"15h00-16h00", "", ""⟩], [], [], []⟩ =
          .ok segs ∧ ∃ seg ∈ segs, 960 < seg.stop := by
  refine ⟨rfl,
    [⟨900, 930, "Arrivee a Heathrow", "Heathrow Airport",
       "Formalites et recuperation des valises.", "transport"⟩,
     ⟨930, 1005, "Vers l'hotel", "Heathrow Airport -> citizenM London Bankside",
       "Heathrow Express jusqu'a Paddington puis taxi/metro (75 min).", "transfer"⟩,
     ⟨1005, 1050, "Installation a l'hotel", "citizenM London Bankside",
       "Check-in et petite pause pour poser les valises.", "visit"⟩],
    rfl, ⟨930, 1005, "Vers l'hotel", "Heathrow Airport -> citizenM London Bankside",
      "Heathrow Express jusqu'a Paddington puis taxi/metro (75 min).", "transfer"⟩,
    ?_, by norm_num⟩
  simp

/-- C1 (amended): every transfer emitted by the visit loop ends within the
day end bound, every visit or meal segment other than the arrival check-in
ends by `max bound (start + 30)` (the 30-minute clamp floor), and every
buffer ends at the bound; the synthesized arrival, return-to-hotel and
departure segments are not checked against the bound and may exceed it. -/
theorem C1_amended (day : DaySection) (s e : ℤ)
    (h : get_day_time_bounds day = .ok (s, e)) :
    ∃ segs, build_day_schedule day = .ok segs ∧
      ∀ seg ∈ segs, SegmentBoundOk e seg := by
  unfold build_day_schedule
  rw [h]
  simp only [bind, Except.bind, pure, Except.pure]
  refine ⟨_, rfl, ?_⟩
  intro seg hseg
  rw [List.append_assoc, List.append_assoc] at hseg
  rcases List.mem_append.mp hseg with h1 | h23
  · exact arrivalPrefix_boundOk _ _ e seg h1
  · rcases List.mem_append.mp h23 with h2 | h34
    · obtain ⟨ht, hv, hb⟩ := visitLoop_seg_bounds e _ HOTEL_NAME _ seg h2
      exact ⟨fun hh => ht hh.1, fun hh => hv hh.1, fun hh => absurd hh hb⟩
    · rcases List.mem_append.mp h34 with h3 | h4
      · exact returnToHotelTail_boundOk _ _ _ e seg h3
      · exact departureTail_boundOk _ _ _ e seg h4

/-- C1 witness: the amended theorem applied to a concrete departure day. -/
theorem C1_witness :
    ∃ segs, build_day_schedule ⟨0, "", "departure", [], [], [], [], []⟩ = .ok segs ∧
      ∀ seg ∈ segs, SegmentBoundOk 720 seg :=
  C1_amended ⟨0, "", "departure", [], [], [], [], []⟩ 420 720 rfl

/-! ### C4, C9, C10: schedule contents -/

theorem mem_poiLocations {locs : List String} {x : String}
    (hx : x ∈ poiLocations locs) :
    x ∈ locs ∧ ∃ info, LOCATION_MAP_get x = some info ∧
      info.category ≠ "transport" ∧ info.category ≠ "hotel" := by
  unfold poiLocations at hx
  obtain ⟨hmem, hpred⟩ := List.mem_filter.mp hx
  refine ⟨hmem, ?_⟩
  cases hinfo : LOCATION_MAP_get x with
  | none => rw [hinfo] at hpred; simp at hpred
  | some info =>
    rw [hinfo] at hpred
    simp only [Bool.not_eq_true', Bool.or_eq_false_iff, beq_eq_false_iff_ne] at hpred
    exact ⟨info, rfl, hpred.1, hpred.2⟩

theorem mem_poiLocations_of_mem {locs : List String} {x : String}
    (hmem : x ∈ locs) (info : LocationInfo)
    (hinfo : LOCATION_MAP_get x = some info)
    (hc1 : info.category ≠ "transport") (hc2 : info.category ≠ "hotel") :
    x ∈ poiLocations locs := by
  unfold poiLocations
  refine List.mem_filter.mpr ⟨hmem, ?_⟩
  rw [hinfo]
  simp only [Bool.not_eq_true', Bool.or_eq_false_iff, beq_eq_false_iff_ne]
  exact ⟨hc1, hc2⟩

theorem mem_dropShardIfOblix {poi : List String} {x : String}
    (hx : x ∈ dropShardIfOblix poi) : x ∈ poi := by
  unfold dropShardIfOblix at hx
  split at hx
  · exact (List.mem_filter.mp hx).1
  · exact hx

theorem shard_not_mem_dropShardIfOblix {poi : List String}
    (h1 : "Oblix at The Shard" ∈ poi) (h2 : "The Shard" ∈ poi) :
    "The Shard" ∉ dropShardIfOblix poi := by
  unfold dropShardIfOblix
  rw [if_pos ⟨h1, h2⟩]
  intro hx
  have := (List.mem_filter.mp hx).2
  simp at this

theorem mem_preferred_fold (poi : List String) :
    ∀ (names acc : List String) (x : String),
      x ∈ names.foldl
        (fun acc name => if name ∈ poi ∧ name ∉ acc then acc ++ [name] else acc) acc →
      x ∈ acc ∨ x ∈ poi := by
  intro names
  induction names with
  | nil => intro acc x hx; exact Or.inl hx
  | cons n ns ih =>
    intro acc x hx
    rw [List.foldl_cons] at hx
    rcases ih _ x hx with h | h
    · split at h
      · rcases List.mem_append.mp h with h' | h'
        · exact Or.inl h'
        · rename_i hc
          simp only [List.mem_singleton] at h'
          subst h'
          exact Or.inr hc.1
      · exact Or.inl h
    · exact Or.inr h

theorem mem_remaining_fold :
    ∀ (names acc : List String) (x : String),
      x ∈ names.foldl (fun acc name => if name ∉ acc then acc ++ [name] else acc) acc →
      x ∈ acc ∨ x ∈ names := by
  intro names
  induction names with
  | nil => intro acc x hx; exact Or.inl hx
  | cons n ns ih =>
    intro acc x hx
    rw [List.foldl_cons] at hx
    rcases ih _ x hx with h | h
    · split at h
      · rcases List.mem_append.mp h with h' | h'
        · exact Or.inl h'
        · simp only [List.mem_singleton] at h'
          subst h'
          exact Or.inr (List.mem_cons_self _ _)
      · exact Or.inl h
    · exact Or.inr (List.mem_cons_of_mem _ h)

theorem mem_buildVisitsOrder {theme : String} {poi : List String} {x : String}
    (hx : x ∈ buildVisitsOrder theme poi) :
    x ∈ poi ∨ x = "Oblix at The Shard" := by
  unfold buildVisitsOrder at hx
  dsimp only at hx
  have hmain : ∀ y : String,
      y ∈ poi.foldl (fun acc name => if name ∉ acc then acc ++ [name] else acc)
        ((PREFERRED_ORDER_get theme).foldl
          (fun acc name => if name ∈ poi ∧ name ∉ acc then acc ++ [name] else acc) []) →
      y ∈ poi := by
    intro y hy
    rcases mem_remaining_fold _ _ y hy with h | h
    · rcases mem_preferred_fold poi _ _ y h with h' | h'
      · simp at h'
      · exact h'
    · exact h
  split at hx
  · rcases List.mem_append.mp hx with h | h
    · exact Or.inl (hmain x h)
    · simp only [List.mem_singleton] at h
      exact Or.inr h
  · exact Or.inl (hmain x hx)

theorem arrivalPrefix_visit_location (th : String) (s : ℤ) :
    ∀ seg ∈ (arrivalPrefix th s).1,
      (seg.segment_type = "visit" ∨ seg.segment_type = "meal") →
      seg.location = HOTEL_NAME := by
  intro seg hseg hvm
  unfold arrivalPrefix at hseg
  split at hseg
  · simp only [List.mem_cons, List.not_mem_nil, or_false] at hseg
    rcases hseg with rfl | rfl | rfl
    · rcases hvm with h | h <;> simp at h
    · rcases hvm with h | h <;> simp at h
    · rfl
  · simp at hseg

theorem returnToHotelTail_types (th p : String) (cur e : ℤ) :
    ∀ seg ∈ (returnToHotelTail th p cur e).1,
      seg.segment_type = "transfer" ∨ seg.segment_type = "buffer" := by
  intro seg hseg
  unfold returnToHotelTail at hseg
  split at hseg
  · dsimp only at hseg
    split at hseg
    · simp only [List.mem_cons, List.not_mem_nil, or_false] at hseg
      rcases hseg with rfl | rfl
      · exact Or.inl rfl
      · exact Or.inr rfl
    · simp only [List.mem_singleton] at hseg
      subst hseg
      exact Or.inl rfl
  · simp at hseg

theorem departureTail_types (th p : String) (cur : ℤ) :
    ∀ seg ∈ departureTail th p cur,
      seg.segment_type = "transfer" ∨ seg.segment_type = "transport" := by
  intro seg hseg
  unfold departureTail at hseg
  split at hseg
  · dsimp only at hseg
    rcases List.mem_append.mp hseg with h1 | h2
    · split at h1
      · simp only [List.mem_singleton] at h1
        subst h1
        exact Or.inl rfl
      · simp at h1
    · simp only [List.mem_cons, List.not_mem_nil, or_false] at h2
      rcases h2 with rfl | rfl
      · exact Or.inl rfl
      · exact Or.inr rfl
  · simp at hseg

theorem returnTail_not_visit_meal {th p : String} {cur e : ℤ} {seg : Segment}
    (hseg : seg ∈ (returnToHotelTail th p cur e).1)
    (hvm : seg.segment_type = "visit" ∨ seg.segment_type = "meal") : False := by
  rcases hvm with hv | hv <;>
    rcases returnToHotelTail_types th p cur e seg hseg with ht | ht <;>
    (rw [hv] at ht; exact absurd ht (by decide))

theorem departureTail_not_visit_meal {th p : String} {cur : ℤ} {seg : Segment}
    (hseg : seg ∈ departureTail th p cur)
    (hvm : seg.segment_type = "visit" ∨ seg.segment_type = "meal") : False := by
  rcases hvm with hv | hv <;>
    rcases departureTail_types th p cur seg hseg with ht | ht <;>
    (rw [hv] at ht; exact absurd ht (by decide))

/-- C4: on every arrival day (whose bounds compute), the schedule begins with
the airport-arrival segment, then the transfer to the hotel using the
75-minute override travel time, then a hotel check-in visit of 45 ≥ 45
minutes, before any other segment. -/
theorem C4_arrival_sequence (day : DaySection) (s e : ℤ)
    (hth : day.theme = "arrival") (h : get_day_time_bounds day = .ok (s, e)) :
    ∃ rest, build_day_schedule day = .ok (
      ⟨s, s + 30, "Arrivee a Heathrow", "Heathrow Airport",
        "Formalites et recuperation des valises.", "transport"⟩ ::
      ⟨s + 30, s + 30 + 75, "Vers l'hotel", "Heathrow Airport -> " ++ HOTEL_NAME,
        "Heathrow Express jusqu'a Paddington puis taxi/metro (75 min).", "transfer"⟩ ::
      ⟨s + 30 + 75, s + 30 + 75 + 45, "Installation a l'hotel", HOTEL_NAME,
        describe_location HOTEL_NAME, "visit"⟩ :: rest) ∧
      TRANSIT_OVERRIDES_get "Heathrow Airport" HOTEL_NAME = some 75 ∧
      (45 : ℤ) ≤ (s + 30 + 75 + 45) - (s + 30 + 75) := by
  have hpre : arrivalPrefix day.theme s = (
      [⟨s, s + 30, "Arrivee a Heathrow", "Heathrow Airport",
         "Formalites et recuperation des valises.", "transport"⟩,
       ⟨s + 30, s + 30 + 75, "Vers l'hotel", "Heathrow Airport -> " ++ HOTEL_NAME,
         "Heathrow Express jusqu'a Paddington puis taxi/metro (75 min).", "transfer"⟩,
       ⟨s + 30 + 75, s + 30 + 75 + 45, "Installation a l'hotel", HOTEL_NAME,
         describe_location HOTEL_NAME, "visit"⟩], s + 30 + 75 + 45) := by
    rw [hth]
    unfold arrivalPrefix
    rw [if_pos rfl]
    dsimp only
    rw [heathrowDefaultDuration_eq, hotelDefaultDuration_eq, estimate_heathrow_hotel]
    norm_num
    rfl
  unfold build_day_schedule
  rw [h]
  simp only [bind, Except.bind, pure, Except.pure]
  rw [hpre]
  exact ⟨_, rfl, rfl, by norm_num⟩

/-- C9: if a day lists both "Oblix at The Shard" and "The Shard", the
schedule contains no visit or meal segment at "The Shard" (it is silently
removed from the visit candidates). -/
theorem C9_shard_dropped (day : DaySection) (s e : ℤ)
    (ho : "Oblix at The Shard" ∈ day.locations)
    (hsh : "The Shard" ∈ day.locations)
    (h : get_day_time_bounds day = .ok (s, e)) :
    ∃ segs, build_day_schedule day = .ok segs ∧
      ∀ seg ∈ segs,
        (seg.segment_type = "visit" ∨ seg.segment_type = "meal") →
        seg.location ≠ "The Shard" := by
  have hpoiO : "Oblix at The Shard" ∈ poiLocations day.locations :=
    mem_poiLocations_of_mem ho _ rfl (by decide) (by decide)
  have hpoiS : "The Shard" ∈ poiLocations day.locations :=
    mem_poiLocations_of_mem hsh _ rfl (by decide) (by decide)
  unfold build_day_schedule
  rw [h]
  simp only [bind, Except.bind, pure, Except.pure]
  refine ⟨_, rfl, ?_⟩
  intro seg hseg hvm
  rw [List.append_assoc, List.append_assoc] at hseg
  rcases List.mem_append.mp hseg with h1 | h23
  · rw [arrivalPrefix_visit_location day.theme s seg h1 hvm]
    decide
  · rcases List.mem_append.mp h23 with h2 | h34
    · have hmem := visitLoop_visit_mem e _ HOTEL_NAME _ seg h2 hvm
      rcases mem_buildVisitsOrder hmem with hp | hp
      · intro heq
        rw [heq] at hp
        exact shard_not_mem_dropShardIfOblix hpoiO hpoiS hp
      · rw [hp]; decide
    · rcases List.mem_append.mp h34 with h3 | h4
      · exact (returnTail_not_visit_meal h3 hvm).elim
      · exact (departureTail_not_visit_meal h4 hvm).elim

/-- C9 witness: the theorem applied to a concrete city day listing both Oblix
and The Shard. -/
theorem C9_witness :
    ∃ segs, build_day_schedule
        ⟨0, "", "city", [], [], ["Oblix at The Shard", "The Shard"], [], []⟩ = .ok segs ∧
      ∀ seg ∈ segs,
        (seg.segment_type = "visit" ∨ seg.segment_type = "meal") →
        seg.location ≠ "The Shard" :=
  C9_shard_dropped ⟨0, "", "city", [], [], ["Oblix at The Shard", "The Shard"], [], []⟩
    540 1290 (by simp) (by simp) rfl

/-- C10: on every non-arrival day, no visit or meal segment is located at a
catalog entry whose category is transport or hotel: such locations are
filtered out of the visit candidates. -/
theorem C10_no_transport_hotel_visits (day : DaySection) (s e : ℤ)
    (hth : day.theme ≠ "arrival") (h : get_day_time_bounds day = .ok (s, e)) :
    ∃ segs, build_day_schedule day = .ok segs ∧
      ∀ seg ∈ segs,
        (seg.segment_type = "visit" ∨ seg.segment_type = "meal") →
        ∀ info, LOCATION_MAP_get seg.location = some info →
          info.category ≠ "transport" ∧ info.category ≠ "hotel" := by
  unfold build_day_schedule
  rw [h]
  simp only [bind, Except.bind, pure, Except.pure]
  refine ⟨_, rfl, ?_⟩
  intro seg hseg hvm info hinfo
  have hpre : arrivalPrefix day.theme s = ([], s) := by
    unfold arrivalPrefix
    rw [if_neg hth]
  rw [hpre] at hseg
  dsimp only at hseg
  rw [List.nil_append, List.append_assoc] at hseg
  rcases List.mem_append.mp hseg with h2 | h34
  · have hmem := visitLoop_visit_mem e _ HOTEL_NAME _ seg h2 hvm
    rcases mem_buildVisitsOrder hmem with hp | hp
    · obtain ⟨-, info', hinfo', hc1, hc2⟩ := mem_poiLocations (mem_dropShardIfOblix hp)
      rw [hinfo'] at hinfo
      obtain rfl : info' = info := Option.some.inj hinfo
      exact ⟨hc1, hc2⟩
    · rw [hp] at hinfo
      have : info = mkLoc "Oblix at The Shard" 51.5045 (-0.0865) "food" 120
          ["oblix", "oblix the shard"] := by
        have hO : LOCATION_MAP_get "Oblix at The Shard" =
            some (mkLoc "Oblix at The Shard" 51.5045 (-0.0865) "food" 120
              ["oblix", "oblix the shard"]) := rfl
        rw [hO] at hinfo
        exact (Option.some.inj hinfo).symm
      subst this
      exact ⟨by decide, by decide⟩
  · rcases List.mem_append.mp h34 with h3 | h4
    · exact (returnTail_not_visit_meal h3 hvm).elim
    · exact (departureTail_not_visit_meal h4 hvm).elim

/-- C10 witness: the theorem applied to a concrete city day listing the
transport-category essential "Westminster Pier". -/
theorem C10_witness :
    ∃ segs, build_day_schedule
        ⟨0, "", "city", [], [], ["Westminster Pier"], [], []⟩ = .ok segs ∧
      ∀ seg ∈ segs,
        (seg.segment_type = "visit" ∨ seg.segment_type = "meal") →
        ∀ info, LOCATION_MAP_get seg.location = some info →
          info.category ≠ "transport" ∧ info.category ≠ "hotel" :=
  C10_no_transport_hotel_visits ⟨0, "", "city", [], [], ["Westminster Pier"], [], []⟩
    540 1290 (by decide) rfl

/-- C4 witness: the arrival-sequence theorem applied to a concrete arrival
day. -/
theorem C4_witness :
    ∃ rest, build_day_schedule ⟨0, "", "arrival", [], [], [], [], []⟩ = .ok (
      ⟨900, 900 + 30, "Arrivee a Heathrow", "Heathrow Airport",
        "Formalites et recuperation des valises.", "transport"⟩ ::
      ⟨900 + 30, 900 + 30 + 75, "Vers l'hotel", "Heathrow Airport -> " ++ HOTEL_NAME,
        "Heathrow Express jusqu'a Paddington puis taxi/metro (75 min).", "transfer"⟩ ::
      ⟨900 + 30 + 75, 900 + 30 + 75 + 45, "Installation a l'hotel", HOTEL_NAME,
        describe_location HOTEL_NAME, "visit"⟩ :: rest) ∧
      TRANSIT_OVERRIDES_get "Heathrow Airport" HOTEL_NAME = some 75 ∧
      (45 : ℤ) ≤ (900 + 30 + 75 + 45) - (900 + 30 + 75) :=
  C4_arrival_sequence ⟨0, "", "arrival", [], [], [], [], []⟩ 900 1380 rfl rfl

/-! ### Deduplicator infrastructure: characterizing `index_by_loc` -/

theorem lookupA_nil (m : String) : lookupA [] m = [] := rfl

theorem lookupA_cons (k : String) (v : List ℕ) (rest : List (String × List ℕ))
    (m : String) :
    lookupA ((k, v) :: rest) m = if k = m then v else lookupA rest m := by
  unfold lookupA
  by_cases h : k = m
  · rw [List.find?_cons_of_pos _ (by simp [h]), if_pos h]
  · rw [List.find?_cons_of_neg _ (by simp [h]), if_neg h]

theorem lookupA_updateAssoc (acc : List (String × List ℕ)) (n : String) (i : ℕ)
    (m : String) :
    lookupA (updateAssoc acc n i) m =
      if n = m then lookupA acc m ++ [i] else lookupA acc m := by
  induction acc with
  | nil =>
    show lookupA [(n, [i])] m = _
    rw [lookupA_cons]
    split <;> rfl
  | cons p rest ih =>
    obtain ⟨k, v⟩ := p
    unfold updateAssoc
    by_cases hkn : k = n
    · subst hkn
      rw [if_pos rfl, lookupA_cons, lookupA_cons]
      by_cases hkm : k = m
      · rw [if_pos hkm, if_pos hkm, if_pos hkm]
      · rw [if_neg hkm, if_neg hkm, if_neg hkm]
    · rw [if_neg hkn, lookupA_cons, lookupA_cons]
      by_cases hkm : k = m
      · subst hkm
        rw [if_pos rfl, if_pos rfl, if_neg (fun h => hkn h.symm)]
      · rw [if_neg hkm, if_neg hkm, ih]

theorem keysOf_updateAssoc (acc : List (String × List ℕ)) (n : String) (i : ℕ) :
    (updateAssoc acc n i).map Prod.fst =
      if n ∈ acc.map Prod.fst then acc.map Prod.fst else acc.map Prod.fst ++ [n] := by
  induction acc with
  | nil => simp [updateAssoc]
  | cons p rest ih =>
    obtain ⟨k, v⟩ := p
    unfold updateAssoc
    by_cases hkn : k = n
    · subst hkn
      rw [if_pos rfl]
      simp
    · rw [if_neg hkn]
      simp only [List.map_cons, List.mem_cons]
      rw [ih]
      by_cases hmem : n ∈ rest.map Prod.fst
      · rw [if_pos hmem, if_pos (Or.inr hmem)]
      · rw [if_neg hmem, if_neg (by rintro (h | h); exact hkn h.symm; exact hmem h)]
        simp

theorem keys_nodup_updateAssoc {acc : List (String × List ℕ)} {n : String} {i : ℕ}
    (h : (acc.map Prod.fst).Nodup) : ((updateAssoc acc n i).map Prod.fst).Nodup := by
  rw [keysOf_updateAssoc]
  split
  · exact h
  · rename_i hmem
    simp [List.nodup_append, h, hmem]

theorem entry_val_eq_lookupA {acc : List (String × List ℕ)}
    (hnd : (acc.map Prod.fst).Nodup) :
    ∀ p ∈ acc, lookupA acc p.1 = p.2 := by
  induction acc with
  | nil => simp
  | cons q rest ih =>
    obtain ⟨k, v⟩ := q
    simp only [List.map_cons, List.nodup_cons] at hnd
    intro p hp
    rcases List.mem_cons.mp hp with rfl | hp'
    · rw [lookupA_cons, if_pos rfl]
    · rw [lookupA_cons, if_neg, ih hnd.2 p hp']
      intro hkp
      exact hnd.1 (hkp ▸ List.mem_map_of_mem Prod.fst hp')

theorem occList_cons (q : String × ℕ) (l : List (String × ℕ)) (m : String) :
    occList (q :: l) m = if q.1 = m then q.2 :: occList l m else occList l m := by
  unfold occList
  rw [List.filter_cons]
  by_cases h : q.1 = m
  · rw [if_pos (by simp [h]), if_pos h, List.map_cons]
  · rw [if_neg (by simp [h]), if_neg h]

theorem lookupA_foldl (l : List (String × ℕ)) :
    ∀ (acc : List (String × List ℕ)) (m : String),
      lookupA (l.foldl (fun a p => updateAssoc a p.1 p.2) acc) m =
        lookupA acc m ++ occList l m := by
  induction l with
  | nil => intro acc m; simp [occList]
  | cons q l ih =>
    intro acc m
    rw [List.foldl_cons, ih, lookupA_updateAssoc, occList_cons]
    by_cases h : q.1 = m
    · rw [if_pos h, if_pos h, List.append_assoc]
      rfl
    · rw [if_neg h, if_neg h]

theorem keys_nodup_foldl (l : List (String × ℕ)) :
    ∀ acc : List (String × List ℕ), (acc.map Prod.fst).Nodup →
      ((l.foldl (fun a p => updateAssoc a p.1 p.2) acc).map Prod.fst).Nodup := by
  induction l with
  | nil => intro acc h; exact h
  | cons q l ih =>
    intro acc h
    rw [List.foldl_cons]
    exact ih _ (keys_nodup_updateAssoc h)

theorem inner_fold_eq (idx : ℕ) (locs : List String) :
    ∀ acc : List (String × List ℕ),
      locs.foldl (fun a n => updateAssoc a n idx) acc =
        (locs.map (fun n => (n, idx))).foldl (fun a p => updateAssoc a p.1 p.2) acc := by
  induction locs with
  | nil => intro acc; rfl
  | cons x xs ih => intro acc; rw [List.foldl_cons, List.map_cons, List.foldl_cons, ih]

theorem indexByLoc_eq_foldl (days : List DaySection) :
    indexByLoc days = (occStream days).foldl (fun a p => updateAssoc a p.1 p.2) [] := by
  suffices h : ∀ acc : List (String × List ℕ),
      days.foldl (fun acc day =>
        day.locations.foldl (fun a n => updateAssoc a n day.index) acc) acc =
        (occStream days).foldl (fun a p => updateAssoc a p.1 p.2) acc by
    exact h []
  induction days with
  | nil => intro acc; rfl
  | cons d ds ih =>
    intro acc
    rw [List.foldl_cons]
    show ds.foldl _ (d.locations.foldl (fun a n => updateAssoc a n d.index) acc) = _
    rw [ih, inner_fold_eq]
    unfold occStream
    rw [List.flatMap_cons, List.foldl_append]

theorem indexByLoc_keys_nodup (days : List DaySection) :
    ((indexByLoc days).map Prod.fst).Nodup := by
  rw [indexByLoc_eq_foldl]
  exact keys_nodup_foldl _ [] (by simp)

theorem lookupA_indexByLoc (days : List DaySection) (m : String) :
    lookupA (indexByLoc days) m = occList (occStream days) m := by
  rw [indexByLoc_eq_foldl, lookupA_foldl, lookupA_nil, List.nil_append]

theorem indexByLoc_entry_val {days : List DaySection} :
    ∀ p ∈ indexByLoc days, p.2 = occList (occStream days) p.1 := by
  intro p hp
  rw [← lookupA_indexByLoc, entry_val_eq_lookupA (indexByLoc_keys_nodup days) p hp]

theorem occList_map_pairs (idx : ℕ) (locs : List String) (name : String) :
    occList (locs.map (fun n => (n, idx))) name =
      List.replicate (locs.count name) idx := by
  induction locs with
  | nil => rfl
  | cons x xs ihx =>
    rw [List.map_cons, occList_cons]
    by_cases h : x = name
    · rw [if_pos h]
      simp [ihx, List.count_cons, h, List.replicate_succ]
    · rw [if_neg h]
      simp [ihx, List.count_cons, h]

theorem occList_occStream (days : List DaySection) (name : String) :
    occList (occStream days) name = occIdx days name := by
  induction days with
  | nil => rfl
  | cons d ds ih =>
    have h1 : occStream (d :: ds) =
        d.locations.map (fun n => (n, d.index)) ++ occStream ds := by
      unfold occStream; rw [List.flatMap_cons]
    have h2 : occIdx (d :: ds) name =
        List.replicate (d.locations.count name) d.index ++ occIdx ds name := by
      unfold occIdx; rw [List.flatMap_cons]
    have hsplit : occList (d.locations.map (fun n => (n, d.index)) ++
        occStream ds) name =
        occList (d.locations.map (fun n => (n, d.index))) name ++
          occList (occStream ds) name := by
      unfold occList
      rw [List.filter_append, List.map_append]
    rw [h1, h2, hsplit, ih, occList_map_pairs]

/-! ### Deduplicator infrastructure: removal passes -/

theorem removeDuplicateFrom_index (name : String) (d : DaySection) :
    (removeDuplicateFrom name d).index = d.index := by
  unfold removeDuplicateFrom
  split
  · rfl
  · split <;> rfl

theorem removeDuplicateFrom_theme (name : String) (d : DaySection) :
    (removeDuplicateFrom name d).theme = d.theme := by
  unfold removeDuplicateFrom
  split
  · rfl
  · split <;> rfl

theorem removeDuplicateFrom_count_ne {name m : String} (hne : m ≠ name)
    (d : DaySection) :
    (removeDuplicateFrom name d).locations.count m = d.locations.count m := by
  unfold removeDuplicateFrom
  split
  · rfl
  · split
    · dsimp only
      exact List.count_erase_of_ne hne _
    · rfl

theorem removeDuplicateFrom_count_self {name : String} {d : DaySection}
    (hguard : ¬(name = HOTEL_NAME ∧ d.theme = "arrival")) :
    (removeDuplicateFrom name d).locations.count name =
      d.locations.count name - 1 := by
  unfold removeDuplicateFrom
  rw [if_neg hguard]
  split
  · dsimp only
    exact List.count_erase_self _ _
  · rename_i hnotin
    have h0 : d.locations.count name = 0 := List.count_eq_zero.mpr hnotin
    omega

theorem modifyAt_length (l : List DaySection) (n : ℕ) (f : DaySection → DaySection) :
    (modifyAt l n f).length = l.length := by
  induction l generalizing n with
  | nil => rfl
  | cons d ds ih =>
    cases n with
    | zero => rfl
    | succ n => simp [modifyAt, ih]

theorem modifyAt_get? (l : List DaySection) (n : ℕ) (f : DaySection → DaySection)
    (p : ℕ) :
    (modifyAt l n f).get? p = if p = n then (l.get? p).map f else l.get? p := by
  induction l generalizing n p with
  | nil => cases p <;> cases n <;> simp [modifyAt]
  | cons d ds ih =>
    cases n with
    | zero =>
      cases p with
      | zero => simp [modifyAt]
      | succ p => simp [modifyAt]
    | succ n =>
      cases p with
      | zero => simp [modifyAt]
      | succ p => simpa [modifyAt] using ih n p

theorem removalPass_get?_map {α : Type} (g : DaySection → α) (name : String)
    (hg : ∀ d, g (removeDuplicateFrom name d) = g d) (best : ℕ)
    (indices : List ℕ) :
    ∀ (days : List DaySection) (p : ℕ),
      ((removalPass name best indices days).get? p).map g = (days.get? p).map g := by
  induction indices with
  | nil => intro days p; rfl
  | cons i is ih =>
    intro days p
    show ((removalPass name best is
      (if i = best then days else modifyAt days i (removeDuplicateFrom name))).get? p).map g = _
    rw [ih]
    split
    · rfl
    · rw [modifyAt_get?]
      split
      · cases days.get? p <;> simp [hg]
      · rfl

theorem removalPass_length (name : String) (best : ℕ) (indices : List ℕ) :
    ∀ days : List DaySection,
      (removalPass name best indices days).length = days.length := by
  induction indices with
  | nil => intro days; rfl
  | cons i is ih =>
    intro days
    show (removalPass name best is _).length = _
    rw [ih]
    dsimp only
    split
    · rfl
    · exact modifyAt_length _ _ _

theorem removalPass_count_self (name : String) (best : ℕ) (indices : List ℕ) :
    ∀ (days : List DaySection) (p : ℕ),
      (∀ d, days.get? p = some d → ¬(name = HOTEL_NAME ∧ d.theme = "arrival")) →
      dayCount (removalPass name best indices days) p name =
        dayCount days p name - (indices.filter (fun i => i ≠ best)).count p := by
  induction indices with
  | nil => intro days p _; simp [removalPass, occList]
  | cons i is ih =>
    intro days p hguard
    show dayCount (removalPass name best is
      (if i = best then days else modifyAt days i (removeDuplicateFrom name))) p name = _
    by_cases hib : i = best
    · rw [if_pos hib, List.filter_cons, if_neg (by simp [hib])]
      exact ih days p hguard
    · rw [if_neg hib, List.filter_cons, if_pos (by simp [hib])]
      have hguard' : ∀ d, (modifyAt days i (removeDuplicateFrom name)).get? p = some d →
          ¬(name = HOTEL_NAME ∧ d.theme = "arrival") := by
        intro d hd
        rw [modifyAt_get?] at hd
        split at hd
        · cases hdp : days.get? p with
          | none => rw [hdp] at hd; simp at hd
          | some d0 =>
            rw [hdp] at hd
            simp only [Option.map_some'] at hd
            obtain rfl : removeDuplicateFrom name d0 = d := Option.some.inj hd
            rw [removeDuplicateFrom_theme]
            exact hguard d0 hdp
        · exact hguard d hd
      rw [ih _ p hguard']
      by_cases hpi : p = i
      · subst hpi
        have hstep : dayCount (modifyAt days p (removeDuplicateFrom name)) p name =
            dayCount days p name - 1 := by
          unfold dayCount
          rw [modifyAt_get?, if_pos rfl]
          cases hdp : days.get? p with
          | none => simp
          | some d0 =>
            simp only [Option.map_some', Option.getD_some, Option.map_map]
            show (removeDuplicateFrom name d0).locations.count name = _
            exact removeDuplicateFrom_count_self (hguard d0 hdp)
        rw [hstep, List.count_cons, if_pos (by simp)]
        omega
      · have hstep : dayCount (modifyAt days i (removeDuplicateFrom name)) p name =
            dayCount days p name := by
          unfold dayCount
          rw [modifyAt_get?, if_neg hpi]
        rw [hstep, List.count_cons, if_neg (by simp; omega)]
        omega

/-! ### Deduplicator infrastructure: argmin and occurrence indices -/

theorem pyMinBy_mem (f : ℕ → WithTop ℝ) (x : ℕ) (xs : List ℕ) :
    pyMinBy f x xs = x ∨ pyMinBy f x xs ∈ xs := by
  induction xs generalizing x with
  | nil => exact Or.inl rfl
  | cons y ys ih =>
    unfold pyMinBy
    rw [List.foldl_cons]
    rcases ih (if f y < f x then y else x) with h | h
    · unfold pyMinBy at h
      rw [h]
      by_cases hc : f y < f x
      · rw [if_pos hc]; exact Or.inr (List.mem_cons_self y ys)
      · rw [if_neg hc]; exact Or.inl rfl
    · exact Or.inr (List.mem_cons_of_mem _ h)

theorem pyMinBy_const (f : ℕ → WithTop ℝ) (x : ℕ) (xs : List ℕ)
    (h : ∀ z ∈ xs, z = x) : pyMinBy f x xs = x := by
  induction xs with
  | nil => rfl
  | cons y ys ih =>
    unfold pyMinBy
    rw [List.foldl_cons]
    have hy : y = x := h y (List.mem_cons_self y ys)
    subst hy
    rw [if_neg (lt_irrefl (f y))]
    exact ih (fun z hz => h z (List.mem_cons_of_mem _ hz))

theorem occIdx_count_aux (name : String) :
    ∀ (days : List DaySection) (k : ℕ),
      days.map DaySection.index = List.range' k days.length →
      (∀ q ∈ occIdx days name, k ≤ q ∧ q < k + days.length) ∧
      (∀ j, (occIdx days name).count (k + j) = dayCount days j name) := by
  intro days
  induction days with
  | nil =>
    intro k _
    refine ⟨by simp [occIdx], fun j => ?_⟩
    simp [occIdx, dayCount]
  | cons d ds ih =>
    intro k h
    simp only [List.map_cons, List.length_cons, List.range'_succ] at h
    have hd : d.index = k := (List.cons.injEq _ _ _ _ ▸ h).1
    have hds : ds.map DaySection.index = List.range' (k + 1) ds.length :=
      (List.cons.injEq _ _ _ _ ▸ h).2
    have ihds := ih (k + 1) hds
    have hocc : occIdx (d :: ds) name =
        List.replicate (d.locations.count name) d.index ++ occIdx ds name := by
      unfold occIdx; rw [List.flatMap_cons]
    constructor
    · intro q hq
      rw [hocc] at hq
      rcases List.mem_append.mp hq with hq' | hq'
      · have : q = d.index := List.eq_of_mem_replicate hq'
        subst this
        rw [hd]
        simp only [List.length_cons]
        omega
      · have := (ihds.1 q hq')
        simp only [List.length_cons]
        omega
    · intro j
      rw [hocc, List.count_append]
      cases j with
      | zero =>
        have h1 : (List.replicate (d.locations.count name) d.index).count (k + 0) =
            d.locations.count name := by
          rw [hd]
          simp [List.count_replicate]
        have h2 : (occIdx ds name).count (k + 0) = 0 := by
          rw [List.count_eq_zero]
          intro hmem
          have := ihds.1 _ hmem
          omega
        rw [h1, h2]
        unfold dayCount
        simp
      | succ j =>
        have h1 : (List.replicate (d.locations.count name) d.index).count (k + (j + 1)) = 0 := by
          rw [List.count_eq_zero]
          intro hmem
          have : k + (j + 1) = d.index := List.eq_of_mem_replicate hmem
          omega
        have h2 : (occIdx ds name).count (k + (j + 1)) = dayCount ds j name := by
          rw [show k + (j + 1) = (k + 1) + j by omega]
          exact ihds.2 j
        rw [h1, h2]
        unfold dayCount
        simp

theorem occIdx_count {days : List DaySection} (h : WellIndexed days)
    (name : String) (p : ℕ) :
    (occIdx days name).count p = dayCount days p name := by
  have h' : days.map DaySection.index = List.range' 0 days.length := by
    rw [← List.range_eq_range']
    exact h
  have := (occIdx_count_aux name days 0 h').2 p
  simpa using this

theorem occIdx_mem_lt {days : List DaySection} (h : WellIndexed days)
    {name : String} {q : ℕ} (hq : q ∈ occIdx days name) : q < days.length := by
  have h' : days.map DaySection.index = List.range' 0 days.length := by
    rw [← List.range_eq_range']
    exact h
  have := ((occIdx_count_aux name days 0 h').1 q hq).2
  omega

theorem occIdx_congr (name : String) :
    ∀ (ds1 ds2 : List DaySection), ds1.length = ds2.length →
      (∀ p, (ds1.get? p).map DaySection.index = (ds2.get? p).map DaySection.index) →
      (∀ p, dayCount ds1 p name = dayCount ds2 p name) →
      occIdx ds1 name = occIdx ds2 name := by
  intro ds1
  induction ds1 with
  | nil =>
    intro ds2 hlen _ _
    have : ds2 = [] := List.eq_nil_of_length_eq_zero hlen.symm
    subst this
    rfl
  | cons d1 r1 ih =>
    intro ds2 hlen hidx hcnt
    cases ds2 with
    | nil => simp at hlen
    | cons d2 r2 =>
      have h0i : d1.index = d2.index := by
        have := hidx 0
        simpa using this
      have h0c : d1.locations.count name = d2.locations.count name := by
        have := hcnt 0
        simpa [dayCount] using this
      have htail : occIdx r1 name = occIdx r2 name := by
        refine ih r2 (by simpa using hlen) (fun p => ?_) (fun p => ?_)
        · simpa using hidx (p + 1)
        · have := hcnt (p + 1)
          simpa [dayCount] using this
      unfold occIdx
      rw [List.flatMap_cons, List.flatMap_cons]
      unfold occIdx at htail
      rw [h0i, h0c, htail]

/-! ### Deduplicator infrastructure: `processEntry` and the merge fold -/

theorem removeDuplicateFrom_count_le (name m : String) (d : DaySection) :
    (removeDuplicateFrom name d).locations.count m ≤ d.locations.count m := by
  unfold removeDuplicateFrom
  split
  · exact le_refl _
  · split
    · dsimp only
      exact (List.erase_sublist _ _).count_le m
    · exact le_refl _

theorem removalPass_count_mono (name : String) (best : ℕ) (indices : List ℕ) :
    ∀ (days : List DaySection) (p : ℕ) (m : String),
      dayCount (removalPass name best indices days) p m ≤ dayCount days p m := by
  induction indices with
  | nil => intro days p m; exact le_refl _
  | cons i is ih =>
    intro days p m
    show dayCount (removalPass name best is _) p m ≤ _
    refine le_trans (ih _ p m) ?_
    dsimp only
    split
    · exact le_refl _
    · unfold dayCount
      rw [modifyAt_get?]
      split
      · cases days.get? p with
        | none => simp
        | some d0 =>
          simp only [Option.map_some', Option.getD_some]
          exact removeDuplicateFrom_count_le name m d0
      · exact le_refl _

theorem processEntry_get?_map {α : Type} (g : DaySection → α)
    (cent : ℕ → ℚ × ℚ) (days : List DaySection) (entry : String × List ℕ)
    (hg : ∀ d, g (removeDuplicateFrom entry.1 d) = g d) (p : ℕ) :
    ((processEntry cent days entry).get? p).map g = (days.get? p).map g := by
  obtain ⟨name, indices⟩ := entry
  match indices with
  | [] => rfl
  | [i] => rfl
  | i :: j :: is =>
    show ((if dedupEligible name then
      removalPass name (pyMinBy (fun idx => distance_between name (cent idx)) i (j :: is))
        (i :: j :: is) days else days).get? p).map g = _
    split
    · exact removalPass_get?_map g name hg _ _ days p
    · rfl

theorem processEntry_length (cent : ℕ → ℚ × ℚ) (days : List DaySection)
    (entry : String × List ℕ) :
    (processEntry cent days entry).length = days.length := by
  obtain ⟨name, indices⟩ := entry
  match indices with
  | [] => rfl
  | [i] => rfl
  | i :: j :: is =>
    show (if dedupEligible name then
      removalPass name (pyMinBy (fun idx => distance_between name (cent idx)) i (j :: is))
        (i :: j :: is) days else days).length = _
    split
    · exact removalPass_length _ _ _ days
    · rfl

theorem processEntry_count_mono (cent : ℕ → ℚ × ℚ) (days : List DaySection)
    (entry : String × List ℕ) (p : ℕ) (m : String) :
    dayCount (processEntry cent days entry) p m ≤ dayCount days p m := by
  obtain ⟨name, indices⟩ := entry
  match indices with
  | [] => exact le_refl _
  | [i] => exact le_refl _
  | i :: j :: is =>
    show dayCount (if dedupEligible name then
      removalPass name (pyMinBy (fun idx => distance_between name (cent idx)) i (j :: is))
        (i :: j :: is) days else days) p m ≤ _
    split
    · exact removalPass_count_mono _ _ _ days p m
    · exact le_refl _

theorem foldl_processEntry_length (cent : ℕ → ℚ × ℚ)
    (entries : List (String × List ℕ)) :
    ∀ ds : List DaySection,
      (entries.foldl (processEntry cent) ds).length = ds.length := by
  induction entries with
  | nil => intro ds; rfl
  | cons e es ih =>
    intro ds
    rw [List.foldl_cons, ih, processEntry_length]

theorem foldl_processEntry_get?_map {α : Type} (g : DaySection → α)
    (cent : ℕ → ℚ × ℚ) (entries : List (String × List ℕ))
    (hentries : ∀ e ∈ entries, ∀ d, g (removeDuplicateFrom e.1 d) = g d) :
    ∀ (ds : List DaySection) (p : ℕ),
      ((entries.foldl (processEntry cent) ds).get? p).map g = (ds.get? p).map g := by
  induction entries with
  | nil => intro ds p; rfl
  | cons e es ih =>
    intro ds p
    rw [List.foldl_cons,
      ih (fun e' he' => hentries e' (List.mem_cons_of_mem _ he')),
      processEntry_get?_map g cent ds e (hentries e (List.mem_cons_self _ _))]

theorem foldl_processEntry_count_mono (cent : ℕ → ℚ × ℚ)
    (entries : List (String × List ℕ)) :
    ∀ (ds : List DaySection) (p : ℕ) (m : String),
      dayCount (entries.foldl (processEntry cent) ds) p m ≤ dayCount ds p m := by
  induction entries with
  | nil => intro ds p m; exact le_refl _
  | cons e es ih =>
    intro ds p m
    rw [List.foldl_cons]
    exact le_trans (ih _ p m) (processEntry_count_mono cent ds e p m)

theorem wellIndexed_of_get?_map {days ds1 : List DaySection}
    (hwi : WellIndexed days) (hlen : ds1.length = days.length)
    (hidx : ∀ p, (ds1.get? p).map DaySection.index =
      (days.get? p).map DaySection.index) : WellIndexed ds1 := by
  unfold WellIndexed at *
  have hmap : ds1.map DaySection.index = days.map DaySection.index := by
    apply List.ext_get?
    intro n
    rw [List.get?_map, List.get?_map, hidx n]
  rw [hmap, hlen, hwi]

theorem lookupA_ne_nil_mem {acc : List (String × List ℕ)} {m : String}
    (h : lookupA acc m ≠ []) : (m, lookupA acc m) ∈ acc := by
  unfold lookupA at *
  cases hf : acc.find? (fun p => p.1 = m) with
  | none => rw [hf] at h; exact absurd rfl h
  | some q =>
    dsimp only at h ⊢
    have hq := List.mem_of_find?_eq_some hf
    have hpred := List.find?_some hf
    simp only [decide_eq_true_eq] at hpred
    rw [← hpred]
    exact hq

theorem count_filter_ne {p best : ℕ} (hne : p ≠ best) (vs : List ℕ) :
    (vs.filter (fun i => i ≠ best)).count p = vs.count p := by
  induction vs with
  | nil => rfl
  | cons x rest ih =>
    rw [List.filter_cons]
    by_cases hx : x = best
    · rw [if_neg (by simp [hx])]
      rw [List.count_cons, if_neg (by simp [hx]; omega)]
      omega
    · rw [if_pos (by simp [hx])]
      rw [List.count_cons, List.count_cons, ih]

/-- After `merge_duplicate_locations`, a dedup-eligible name whose removal is
never blocked by the arrival-hotel exception occurs in at most one positional
day. -/
theorem merge_name_single_pos (days : List DaySection) (name : String)
    (hwi : WellIndexed days)
    (helig : dedupEligible name = true)
    (hg : ∀ d ∈ days, ¬(name = HOTEL_NAME ∧ d.theme = "arrival")) :
    ∀ p q, p ≠ q →
      0 < dayCount (merge_duplicate_locations days) p name →
      0 < dayCount (merge_duplicate_locations days) q name → False := by
  intro p q hpq hp hq
  by_cases hocc : occList (occStream days) name = []
  · have hcount0 : dayCount days p name = 0 := by
      have h1 := occIdx_count hwi name p
      rw [← occList_occStream, hocc] at h1
      simpa using h1.symm
    have hmono := foldl_processEntry_count_mono (centroidsGet days)
      (indexByLoc days) days p name
    unfold merge_duplicate_locations at hp
    omega
  · obtain ⟨vs, hvsval, hmem⟩ :
        ∃ vs, vs = occIdx days name ∧ (name, vs) ∈ indexByLoc days :=
      ⟨_, by rw [lookupA_indexByLoc, occList_occStream],
        lookupA_ne_nil_mem (by rw [lookupA_indexByLoc]; exact hocc)⟩
    obtain ⟨l1, l2, hsplit⟩ := List.append_of_mem hmem
    have hnd := indexByLoc_keys_nodup days
    rw [hsplit, List.map_append, List.map_cons] at hnd
    have hnotin1 : name ∉ l1.map Prod.fst := fun hmem1 =>
      (List.disjoint_of_nodup_append hnd) hmem1 (List.mem_cons_self _ _)
    have hnotin2 : name ∉ l2.map Prod.fst :=
      (List.nodup_cons.mp (List.Nodup.of_append_right hnd)).1
    have hkeys1 : ∀ e ∈ l1, e.1 ≠ name := fun e he heq =>
      hnotin1 (heq ▸ List.mem_map_of_mem Prod.fst he)
    have hkeys2 : ∀ e ∈ l2, e.1 ≠ name := fun e he heq =>
      hnotin2 (heq ▸ List.mem_map_of_mem Prod.fst he)
    unfold merge_duplicate_locations at hp hq
    rw [hsplit, List.foldl_append, List.foldl_cons] at hp hq
    have hlen1 : (l1.foldl (processEntry (centroidsGet days)) days).length = days.length :=
      foldl_processEntry_length _ _ days
    have hidx1 : ∀ r, ((l1.foldl (processEntry (centroidsGet days)) days).get? r).map
        DaySection.index = (days.get? r).map DaySection.index :=
      foldl_processEntry_get?_map DaySection.index _ l1
        (fun e _ d => removeDuplicateFrom_index e.1 d) days
    have hthm1 : ∀ r, ((l1.foldl (processEntry (centroidsGet days)) days).get? r).map
        DaySection.theme = (days.get? r).map DaySection.theme :=
      foldl_processEntry_get?_map DaySection.theme _ l1
        (fun e _ d => removeDuplicateFrom_theme e.1 d) days
    have hcnt1 : ∀ r, dayCount (l1.foldl (processEntry (centroidsGet days)) days) r name =
        dayCount days r name := by
      intro r
      unfold dayCount
      rw [foldl_processEntry_get?_map (fun d => d.locations.count name) _ l1
        (fun e he d => removeDuplicateFrom_count_ne (fun h => hkeys1 e he h.symm) d) days]
    have hwi1 : WellIndexed (l1.foldl (processEntry (centroidsGet days)) days) :=
      wellIndexed_of_get?_map hwi hlen1 hidx1
    have hvs1 : vs = occIdx (l1.foldl (processEntry (centroidsGet days)) days) name := by
      rw [hvsval]
      exact (occIdx_congr name _ days hlen1 hidx1 hcnt1).symm
    have hguard1 : ∀ (r : ℕ) (d : DaySection),
        (l1.foldl (processEntry (centroidsGet days)) days).get? r = some d →
        ¬(name = HOTEL_NAME ∧ d.theme = "arrival") := by
      intro r d hd
      have := hthm1 r
      rw [hd] at this
      cases hd0 : days.get? r with
      | none => rw [hd0] at this; simp at this
      | some d0 =>
        rw [hd0] at this
        simp only [Option.map_some'] at this
        have hth : d.theme = d0.theme := Option.some.inj this
        rw [hth]
        exact hg d0 (List.get?_mem hd0)
    have hgood : ∀ r t, r ≠ t →
        0 < dayCount (processEntry (centroidsGet days)
          (l1.foldl (processEntry (centroidsGet days)) days) (name, vs)) r name →
        0 < dayCount (processEntry (centroidsGet days)
          (l1.foldl (processEntry (centroidsGet days)) days) (name, vs)) t name →
        False := by
      intro r t hrt hr ht
      match vs, hvs1 with
      | [], hvs1 =>
        have h0 : dayCount (l1.foldl (processEntry (centroidsGet days)) days) r name = 0 := by
          have := occIdx_count hwi1 name r
          rw [← hvs1] at this
          simpa using this.symm
        show False
        have : (processEntry (centroidsGet days)
            (l1.foldl (processEntry (centroidsGet days)) days) (name, ([] : List ℕ))) =
            l1.foldl (processEntry (centroidsGet days)) days := rfl
        rw [this] at hr
        omega
      | [v], hvs1 =>
        have heq : (processEntry (centroidsGet days)
            (l1.foldl (processEntry (centroidsGet days)) days) (name, [v])) =
            l1.foldl (processEntry (centroidsGet days)) days := rfl
        rw [heq] at hr ht
        have hrv : r = v := by
          have hcr := occIdx_count hwi1 name r
          rw [← hvs1] at hcr
          have : 0 < List.count r [v] := by omega
          have hmem := List.count_pos_iff_mem.mp this
          simpa using hmem
        have htv : t = v := by
          have hct := occIdx_count hwi1 name t
          rw [← hvs1] at hct
          have : 0 < List.count t [v] := by omega
          have hmem := List.count_pos_iff_mem.mp this
          simpa using hmem
        exact hrt (hrv.trans htv.symm)
      | i :: j :: is, hvs1 =>
        have heq : (processEntry (centroidsGet days)
            (l1.foldl (processEntry (centroidsGet days)) days) (name, i :: j :: is)) =
            removalPass name
              (pyMinBy (fun idx => distance_between name (centroidsGet days idx)) i (j :: is))
              (i :: j :: is) (l1.foldl (processEntry (centroidsGet days)) days) := by
          show (if dedupEligible name then _ else _) = _
          rw [if_pos helig]
        rw [heq] at hr ht
        have hzero : ∀ u, u ≠ pyMinBy (fun idx => distance_between name (centroidsGet days idx)) i (j :: is) →
            dayCount (removalPass name
              (pyMinBy (fun idx => distance_between name (centroidsGet days idx)) i (j :: is))
              (i :: j :: is) (l1.foldl (processEntry (centroidsGet days)) days)) u name = 0 := by
          intro u hu
          rw [removalPass_count_self name _ _ _ u (fun d hd => hguard1 u d hd),
            count_filter_ne hu]
          have hcu : List.count u (i :: j :: is) =
              dayCount (l1.foldl (processEntry (centroidsGet days)) days) u name := by
            rw [hvs1]
            exact occIdx_count hwi1 name u
          rw [hcu]
          omega
        by_cases hrb : r = pyMinBy (fun idx => distance_between name (centroidsGet days idx)) i (j :: is)
        · have htb : t ≠ pyMinBy (fun idx => distance_between name (centroidsGet days idx)) i (j :: is) :=
            fun h => hrt (hrb.trans h.symm)
          rw [hzero t htb] at ht
          omega
        · rw [hzero r hrb] at hr
          omega
    have hp2 : 0 < dayCount (processEntry (centroidsGet days)
        (l1.foldl (processEntry (centroidsGet days)) days) (name, vs)) p name :=
      lt_of_lt_of_le hp (foldl_processEntry_count_mono _ l2 _ p name)
    have hq2 : 0 < dayCount (processEntry (centroidsGet days)
        (l1.foldl (processEntry (centroidsGet days)) days) (name, vs)) q name :=
      lt_of_lt_of_le hq (foldl_processEntry_count_mono _ l2 _ q name)
    exact hgood p q hpq hp2 hq2

/-! ### C2: deduplication across days -/

theorem countDaysWith_eq_zero {name : String} {ds : List DaySection}
    (h : ∀ j, dayCount ds j name = 0) : countDaysWith name ds = 0 := by
  induction ds with
  | nil => rfl
  | cons d rest ih =>
    unfold countDaysWith
    rw [List.filter_cons]
    have h0 : d.locations.count name = 0 := by
      have := h 0
      simpa [dayCount] using this
    have hnotmem : name ∉ d.locations := List.count_eq_zero.mp h0
    rw [if_neg (by simpa using hnotmem)]
    exact ih (fun j => by have := h (j + 1); simpa [dayCount] using this)

theorem countDaysWith_le_one_of_single_pos (name : String) (ds : List DaySection)
    (h : ∀ p q, p ≠ q → 0 < dayCount ds p name → 0 < dayCount ds q name → False) :
    countDaysWith name ds ≤ 1 := by
  induction ds with
  | nil => exact Nat.le_succ 0
  | cons d rest ih =>
    unfold countDaysWith
    rw [List.filter_cons]
    by_cases hmem : name ∈ d.locations
    · rw [if_pos (by simpa using hmem)]
      have hzero : ∀ j, dayCount rest j name = 0 := by
        intro j
        by_contra hj
        refine h 0 (j + 1) (by omega) ?_ ?_
        · have : 0 < d.locations.count name := List.count_pos_iff.mpr hmem
          simpa [dayCount] using this
        · have : dayCount (d :: rest) (j + 1) name = dayCount rest j name := by
            simp [dayCount]
          omega
      have : countDaysWith name rest = 0 := countDaysWith_eq_zero hzero
      unfold countDaysWith at this
      rw [List.length_cons, this]
    · rw [if_neg (by simpa using hmem)]
      refine ih (fun p q hpq hp hq => h (p + 1) (q + 1) (by omega) ?_ ?_)
      · have : dayCount (d :: rest) (p + 1) name = dayCount rest p name := by
          simp [dayCount]
        omega
      · have : dayCount (d :: rest) (q + 1) name = dayCount rest q name := by
          simp [dayCount]
        omega

/-- C2, counterexample: "London Eye" (a landmark, not whitelisted) listed on
two days is not deduplicated at all: after `merge_duplicate_locations` both
days still list it, so the claimed bound of at most one day fails for
non-whitelisted names whose category is neither transport nor hotel. -/
theorem C2_counterexample :
    countDaysWith "London Eye" (merge_duplicate_locations
      [⟨0, "", "city", [], [], ["London Eye"], [], []⟩,
       ⟨1, "", "city", [], [], ["London Eye"], [], []⟩]) = 2 ∧
      "London Eye" ∉ DEDUP_WHITELIST :=
  ⟨rfl, by decide⟩

/-- C2 (amended): deduplication applies exactly to the dedup-eligible names
(whitelisted, or of category transport or hotel): after
`merge_duplicate_locations` on a well-indexed day list, every eligible name
other than the hotel is listed by at most one day; the hotel may additionally
stay on an arrival day, and ineligible names are not deduplicated at all. -/
theorem C2_amended (days : List DaySection) (name : String)
    (hwi : WellIndexed days) (helig : dedupEligible name = true)
    (hne : name ≠ HOTEL_NAME) :
    countDaysWith name (merge_duplicate_locations days) ≤ 1 :=
  countDaysWith_le_one_of_single_pos name _
    (merge_name_single_pos days name hwi helig (fun d _ h => hne h.1))

/-- C2 witness: the amended theorem applied to two concrete days both listing
the whitelisted "South Bank Promenade". -/
theorem C2_witness :
    countDaysWith "South Bank Promenade" (merge_duplicate_locations
      [⟨0, "", "city", [], [], ["South Bank Promenade"], [], []⟩,
       ⟨1, "", "mayfair", [], [], ["South Bank Promenade"], [], []⟩]) ≤ 1 :=
  C2_amended
    [⟨0, "", "city", [], [], ["South Bank Promenade"], [], []⟩,
     ⟨1, "", "mayfair", [], [], ["South Bank Promenade"], [], []⟩]
    "South Bank Promenade" (by decide) rfl (by decide)

/-! ### C6: haversine sign facts and merge idempotence -/

theorem haversine_self (p : ℚ × ℚ) : haversine_km p p = 0 := by
  unfold haversine_km
  simp [sub_self, Real.sin_zero, Real.sqrt_zero, Real.arcsin_zero]

theorem radians_abs_lt {r : ℚ} (h : |(r : ℝ)| < 90) :
    |radians r| < Real.pi / 2 := by
  have hpi := Real.pi_pos
  unfold radians
  calc |(r : ℝ) * Real.pi / 180| = |(r : ℝ)| * Real.pi / 180 := by
        rw [abs_div, abs_mul, abs_of_pos hpi]
        norm_num
    _ < 90 * Real.pi / 180 := by gcongr
    _ = Real.pi / 2 := by ring

theorem haversine_pos {a b : ℚ × ℚ} (hlat : a.1 ≠ b.1)
    (ha : |(a.1 : ℝ)| < 90) (hb : |(b.1 : ℝ)| < 90) :
    0 < haversine_km a b := by
  have hpi := Real.pi_pos
  unfold haversine_km
  dsimp only
  have hdlat : radians b.1 - radians a.1 =
      (((b.1 : ℝ) - (a.1 : ℝ)) * Real.pi) / 180 := by
    unfold radians; ring
  have hδ : ((b.1 : ℝ) - (a.1 : ℝ)) ≠ 0 := by
    intro h0
    apply hlat
    have : (b.1 : ℝ) = (a.1 : ℝ) := by linarith
    exact_mod_cast this.symm
  have habs : |(b.1 : ℝ) - (a.1 : ℝ)| < 180 := by
    have h1 := abs_lt.mp ha
    have h2 := abs_lt.mp hb
    rw [abs_lt]
    constructor <;> linarith
  have hang : (radians b.1 - radians a.1) / 2 = ((b.1 : ℝ) - a.1) * Real.pi / 360 := by
    rw [hdlat]; ring
  have hangne : (radians b.1 - radians a.1) / 2 ≠ 0 := by
    rw [hang]
    intro h0
    have h1 : ((b.1 : ℝ) - a.1) * Real.pi = 0 := by
      rcases div_eq_zero_iff.mp h0 with h | h
      · exact h
      · norm_num at h
    rcases mul_eq_zero.mp h1 with h | h
    · exact hδ h
    · exact absurd h (ne_of_gt hpi)
  have hangbound : |(radians b.1 - radians a.1) / 2| < Real.pi := by
    rw [hang]
    calc |((b.1 : ℝ) - a.1) * Real.pi / 360| =
        |(b.1 : ℝ) - a.1| * Real.pi / 360 := by
          rw [abs_div, abs_mul, abs_of_pos hpi]
          norm_num
      _ < 360 * Real.pi / 360 := by
          gcongr
          linarith
      _ = Real.pi := by ring
  have hsinne : Real.sin ((radians b.1 - radians a.1) / 2) ≠ 0 := by
    intro h0
    have hb1 := abs_lt.mp hangbound
    have := (Real.sin_eq_zero_iff_of_lt_of_lt (by linarith) (by linarith)).mp h0
    exact hangne this
  have hsq : 0 < Real.sin ((radians b.1 - radians a.1) / 2) ^ 2 :=
    pow_two_pos_of_ne_zero hsinne
  have hcosa : 0 < Real.cos (radians a.1) := by
    apply Real.cos_pos_of_mem_Ioo
    have := abs_lt.mp (radians_abs_lt ha)
    exact ⟨by linarith [this.1], by linarith [this.2]⟩
  have hcosb : 0 < Real.cos (radians b.1) := by
    apply Real.cos_pos_of_mem_Ioo
    have := abs_lt.mp (radians_abs_lt hb)
    exact ⟨by linarith [this.1], by linarith [this.2]⟩
  have hsecond : 0 ≤ Real.cos (radians a.1) * Real.cos (radians b.1) *
      Real.sin ((radians b.2 - radians a.2) / 2) ^ 2 := by positivity
  have hh : 0 < Real.sin ((radians b.1 - radians a.1) / 2) ^ 2 +
      Real.cos (radians a.1) * Real.cos (radians b.1) *
        Real.sin ((radians b.2 - radians a.2) / 2) ^ 2 := by linarith
  have hsqrt : 0 < Real.sqrt (Real.sin ((radians b.1 - radians a.1) / 2) ^ 2 +
      Real.cos (radians a.1) * Real.cos (radians b.1) *
        Real.sin ((radians b.2 - radians a.2) / 2) ^ 2) := Real.sqrt_pos.mpr hh
  have harc := Real.arcsin_pos.mpr hsqrt
  linarith

theorem removalPass_id (name : String) (best : ℕ) :
    ∀ (indices : List ℕ) (days : List DaySection),
      (∀ idx ∈ indices, idx = best) → removalPass name best indices days = days := by
  intro indices
  induction indices with
  | nil => intro days _; rfl
  | cons i is ih =>
    intro days h
    show removalPass name best is
      (if i = best then days else modifyAt days i (removeDuplicateFrom name)) = days
    rw [if_pos (h i (List.mem_cons_self _ _))]
    exact ih days (fun idx hidx => h idx (List.mem_cons_of_mem _ hidx))

theorem foldl_processEntry_id (cent : ℕ → ℚ × ℚ)
    (entries : List (String × List ℕ)) (ds : List DaySection)
    (h : ∀ e ∈ entries, processEntry cent ds e = ds) :
    entries.foldl (processEntry cent) ds = ds := by
  induction entries with
  | nil => rfl
  | cons e es ih =>
    rw [List.foldl_cons, h e (List.mem_cons_self _ _)]
    exact ih (fun e' he' => h e' (List.mem_cons_of_mem _ he'))

/-- C6 (amended): on a well-indexed day list with no arrival-themed day,
`merge_duplicate_locations` is idempotent: a second run changes nothing.
(With an arrival day the hotel can survive on two days through the
arrival-day exception, and the second run, whose centroids have moved, may
remove it from one of them.) -/
theorem C6_merge_idempotent (days : List DaySection)
    (hwi : WellIndexed days) (hna : ∀ d ∈ days, d.theme ≠ "arrival") :
    merge_duplicate_locations (merge_duplicate_locations days) =
      merge_duplicate_locations days := by
  have hlen : (merge_duplicate_locations days).length = days.length :=
    foldl_processEntry_length _ _ days
  have hidxp : ∀ p, ((merge_duplicate_locations days).get? p).map DaySection.index =
      (days.get? p).map DaySection.index :=
    foldl_processEntry_get?_map DaySection.index _ _
      (fun e _ d => removeDuplicateFrom_index e.1 d) days
  have hthmp : ∀ p, ((merge_duplicate_locations days).get? p).map DaySection.theme =
      (days.get? p).map DaySection.theme :=
    foldl_processEntry_get?_map DaySection.theme _ _
      (fun e _ d => removeDuplicateFrom_theme e.1 d) days
  have hwi' : WellIndexed (merge_duplicate_locations days) :=
    wellIndexed_of_get?_map hwi hlen hidxp
  have hsingle : ∀ name, dedupEligible name = true → ∀ p q, p ≠ q →
      0 < dayCount (merge_duplicate_locations days) p name →
      0 < dayCount (merge_duplicate_locations days) q name → False :=
    fun name he => merge_name_single_pos days name hwi he (fun d hd h => hna d hd h.2)
  show (indexByLoc (merge_duplicate_locations days)).foldl
    (processEntry (centroidsGet (merge_duplicate_locations days)))
    (merge_duplicate_locations days) = merge_duplicate_locations days
  apply foldl_processEntry_id
  intro e he
  obtain ⟨m, vs⟩ := e
  have hval : vs = occIdx (merge_duplicate_locations days) m := by
    have := @indexByLoc_entry_val (merge_duplicate_locations days) (m, vs) he
    simpa [occList_occStream] using this
  match vs, hval with
  | [], _ => rfl
  | [v], _ => rfl
  | i :: j :: is, hval =>
    show (if dedupEligible m then
        removalPass m (pyMinBy (fun idx => distance_between m
          (centroidsGet (merge_duplicate_locations days) idx)) i (j :: is))
          (i :: j :: is) (merge_duplicate_locations days)
      else merge_duplicate_locations days) = merge_duplicate_locations days
    by_cases helig : dedupEligible m = true
    · rw [if_pos helig]
      have hallEq : ∀ z ∈ i :: j :: is, z = i := by
        intro z hz
        by_contra hne
        have hzmem : z ∈ occIdx (merge_duplicate_locations days) m := hval ▸ hz
        have himem : i ∈ occIdx (merge_duplicate_locations days) m :=
          hval ▸ List.mem_cons_self _ _
        have hzc : 0 < dayCount (merge_duplicate_locations days) z m := by
          rw [← occIdx_count hwi' m z]
          exact List.count_pos_iff.mpr hzmem
        have hic : 0 < dayCount (merge_duplicate_locations days) i m := by
          rw [← occIdx_count hwi' m i]
          exact List.count_pos_iff.mpr himem
        exact hsingle m helig z i hne hzc hic
      rw [pyMinBy_const _ i _ (fun z hz => hallEq z (List.mem_cons_of_mem _ hz))]
      exact removalPass_id m i _ (merge_duplicate_locations days) hallEq
    · rw [if_neg helig]

/-- C6 witness: the idempotence theorem applied to two concrete non-arrival
days that share a whitelisted location. -/
theorem C6_witness :
    merge_duplicate_locations (merge_duplicate_locations
      [⟨0, "", "city", [], [], ["South Bank Promenade", "London Eye"], [], []⟩,
       ⟨1, "", "mayfair", [], [], ["South Bank Promenade"], [], []⟩]) =
      merge_duplicate_locations
        [⟨0, "", "city", [], [], ["South Bank Promenade", "London Eye"], [], []⟩,
         ⟨1, "", "mayfair", [], [], ["South Bank Promenade"], [], []⟩] :=
  C6_merge_idempotent
    [⟨0, "", "city", [], [], ["South Bank Promenade", "London Eye"], [], []⟩,
     ⟨1, "", "mayfair", [], [], ["South Bank Promenade"], [], []⟩]
    (by decide) (by decide)

theorem compute_centroid_one (n : String) (i : LocationInfo)
    (h : LOCATION_MAP_get n = some i) :
    compute_centroid [n] = (i.lat, i.lon) := by
  have hf : List.filterMap LOCATION_MAP_get [n] = [i] := by
    simp [List.filterMap_cons, h]
  simp only [compute_centroid]
  rw [hf]
  simp

theorem compute_centroid_two (n1 n2 : String) (i1 i2 : LocationInfo)
    (h1 : LOCATION_MAP_get n1 = some i1) (h2 : LOCATION_MAP_get n2 = some i2) :
    compute_centroid [n1, n2] =
      ((i1.lat + i2.lat) / 2, (i1.lon + i2.lon) / 2) := by
  have hf : List.filterMap LOCATION_MAP_get [n1, n2] = [i1, i2] := by
    simp [List.filterMap_cons, h1, h2]
  simp only [compute_centroid]
  rw [hf]
  norm_num

/-- C6 counterexample: running the deduplication twice is NOT always the
same as running it once. On `tripDays0` the first run removes only the
promenade from the arrival day (the hotel survives on both days through the
arrival-day exception), but a second run, whose centroids have shifted onto
the hotel itself, removes the hotel from the non-arrival city day. -/
theorem C6_counterexample :
    merge_duplicate_locations tripDays0 = tripDays1 ∧
    merge_duplicate_locations tripDays1 = tripDays2 ∧
    tripDays2 ≠ tripDays1 := by
  refine ⟨?_, ?_, by decide⟩
  · have hidx : indexByLoc tripDays0 =
        [("citizenM London Bankside", [0, 1]), ("South Bank Promenade", [0, 2])] := by
      decide
    show (indexByLoc tripDays0).foldl (processEntry (centroidsGet tripDays0))
      tripDays0 = tripDays1
    rw [hidx, List.foldl_cons, List.foldl_cons, List.foldl_nil]
    have hmapH : LOCATION_MAP_get "citizenM London Bankside" =
        some (mkLoc "citizenM London Bankside" 51.5055 (-0.0993) "hotel" 30
          ["citizenm", "citizenm bankside", "citizenm london bankside"]) := rfl
    have hmapS : LOCATION_MAP_get "South Bank Promenade" =
        some (mkLoc "South Bank Promenade" 51.5073 (-0.0995) "walk" 60
          ["south bank"]) := rfl
    have hc0 : centroidsGet tripDays0 0 = ((51.5064 : ℚ), (-0.0994 : ℚ)) := by
      show compute_centroid ["citizenM London Bankside", "South Bank Promenade"] = _
      rw [compute_centroid_two _ _ _ _ hmapH hmapS]
      norm_num [mkLoc]
    have hc1 : centroidsGet tripDays0 1 = ((51.5055 : ℚ), (-0.0993 : ℚ)) := by
      show compute_centroid ["citizenM London Bankside"] = _
      rw [compute_centroid_one _ _ hmapH]
      rfl
    have hc2 : centroidsGet tripDays0 2 = ((51.5073 : ℚ), (-0.0995 : ℚ)) := by
      show compute_centroid ["South Bank Promenade"] = _
      rw [compute_centroid_one _ _ hmapS]
      rfl
    have hstep1 : processEntry (centroidsGet tripDays0) tripDays0
        ("citizenM London Bankside", [0, 1]) = tripDays0 := by
      show (if dedupEligible "citizenM London Bankside" then
          removalPass "citizenM London Bankside"
            (pyMinBy (fun idx => distance_between "citizenM London Bankside"
              (centroidsGet tripDays0 idx)) 0 [1]) [0, 1] tripDays0
        else tripDays0) = tripDays0
      rw [if_pos (show dedupEligible "citizenM London Bankside" = true from by decide)]
      have hlt : distance_between "citizenM London Bankside" (centroidsGet tripDays0 1) <
          distance_between "citizenM London Bankside" (centroidsGet tripDays0 0) := by
        rw [hc1, hc0]
        have e1 : distance_between "citizenM London Bankside"
            ((51.5055 : ℚ), (-0.0993 : ℚ)) =
            ((haversine_km ((51.5055 : ℚ), (-0.0993 : ℚ))
              ((51.5055 : ℚ), (-0.0993 : ℚ)) : ℝ) : WithTop ℝ) := rfl
        have e0 : distance_between "citizenM London Bankside"
            ((51.5064 : ℚ), (-0.0994 : ℚ)) =
            ((haversine_km ((51.5055 : ℚ), (-0.0993 : ℚ))
              ((51.5064 : ℚ), (-0.0994 : ℚ)) : ℝ) : WithTop ℝ) := rfl
        rw [e1, e0, haversine_self]
        exact WithTop.coe_lt_coe.mpr
          (haversine_pos (by norm_num)
            (by rw [abs_lt]; constructor <;> norm_num)
            (by rw [abs_lt]; constructor <;> norm_num))
      have hbest : pyMinBy (fun idx => distance_between "citizenM London Bankside"
          (centroidsGet tripDays0 idx)) 0 [1] = 1 := by
        show (if distance_between "citizenM London Bankside" (centroidsGet tripDays0 1) <
            distance_between "citizenM London Bankside" (centroidsGet tripDays0 0)
          then 1 else 0) = 1
        rw [if_pos hlt]
      rw [hbest]
      decide
    rw [hstep1]
    show (if dedupEligible "South Bank Promenade" then
        removalPass "South Bank Promenade"
          (pyMinBy (fun idx => distance_between "South Bank Promenade"
            (centroidsGet tripDays0 idx)) 0 [2]) [0, 2] tripDays0
      else tripDays0) = tripDays1
    rw [if_pos (show dedupEligible "South Bank Promenade" = true from by decide)]
    have hlt2 : distance_between "South Bank Promenade" (centroidsGet tripDays0 2) <
        distance_between "South Bank Promenade" (centroidsGet tripDays0 0) := by
      rw [hc2, hc0]
      have e2 : distance_between "South Bank Promenade"
          ((51.5073 : ℚ), (-0.0995 : ℚ)) =
          ((haversine_km ((51.5073 : ℚ), (-0.0995 : ℚ))
            ((51.5073 : ℚ), (-0.0995 : ℚ)) : ℝ) : WithTop ℝ) := rfl
      have e0 : distance_between "South Bank Promenade"
          ((51.5064 : ℚ), (-0.0994 : ℚ)) =
          ((haversine_km ((51.5073 : ℚ), (-0.0995 : ℚ))
            ((51.5064 : ℚ), (-0.0994 : ℚ)) : ℝ) : WithTop ℝ) := rfl
      rw [e2, e0, haversine_self]
      exact WithTop.coe_lt_coe.mpr
        (haversine_pos (by norm_num)
            (by rw [abs_lt]; constructor <;> norm_num)
            (by rw [abs_lt]; constructor <;> norm_num))
    have hbest2 : pyMinBy (fun idx => distance_between "South Bank Promenade"
        (centroidsGet tripDays0 idx)) 0 [2] = 2 := by
      show (if distance_between "South Bank Promenade" (centroidsGet tripDays0 2) <
          distance_between "South Bank Promenade" (centroidsGet tripDays0 0)
        then 2 else 0) = 2
      rw [if_pos hlt2]
    rw [hbest2]
    decide
  · have hidx : indexByLoc tripDays1 =
        [("citizenM London Bankside", [0, 1]), ("South Bank Promenade", [2])] := by
      decide
    show (indexByLoc tripDays1).foldl (processEntry (centroidsGet tripDays1))
      tripDays1 = tripDays2
    rw [hidx, List.foldl_cons, List.foldl_cons, List.foldl_nil]
    have hmapH : LOCATION_MAP_get "citizenM London Bankside" =
        some (mkLoc "citizenM London Bankside" 51.5055 (-0.0993) "hotel" 30
          ["citizenm", "citizenm bankside", "citizenm london bankside"]) := rfl
    have hmapS : LOCATION_MAP_get "South Bank Promenade" =
        some (mkLoc "South Bank Promenade" 51.5073 (-0.0995) "walk" 60
          ["south bank"]) := rfl
    have hc0 : centroidsGet tripDays1 0 = ((51.5055 : ℚ), (-0.0993 : ℚ)) := by
      show compute_centroid ["citizenM London Bankside"] = _
      rw [compute_centroid_one _ _ hmapH]
      rfl
    have hc1 : centroidsGet tripDays1 1 = ((51.5055 : ℚ), (-0.0993 : ℚ)) := by
      show compute_centroid ["citizenM London Bankside"] = _
      rw [compute_centroid_one _ _ hmapH]
      rfl
    have hstep1 : processEntry (centroidsGet tripDays1) tripDays1
        ("citizenM London Bankside", [0, 1]) = tripDays2 := by
      show (if dedupEligible "citizenM London Bankside" then
          removalPass "citizenM London Bankside"
            (pyMinBy (fun idx => distance_between "citizenM London Bankside"
              (centroidsGet tripDays1 idx)) 0 [1]) [0, 1] tripDays1
        else tripDays1) = tripDays2
      rw [if_pos (show dedupEligible "citizenM London Bankside" = true from by decide)]
      have hnlt : ¬ (distance_between "citizenM London Bankside" (centroidsGet tripDays1 1) <
          distance_between "citizenM London Bankside" (centroidsGet tripDays1 0)) := by
        rw [hc0, hc1]
        exact lt_irrefl _
      have hbest : pyMinBy (fun idx => distance_between "citizenM London Bankside"
          (centroidsGet tripDays1 idx)) 0 [1] = 0 := by
        show (if distance_between "citizenM London Bankside" (centroidsGet tripDays1 1) <
            distance_between "citizenM London Bankside" (centroidsGet tripDays1 0)
          then 1 else 0) = 0
        rw [if_neg hnlt]
      rw [hbest]
      decide
    rw [hstep1]
    rfl

end London
